import Mathlib

/-!
Verification of the mcp-debugger DAP orchestrator against its
natural-language specification.  The definitions below are a shallow
embedding of `src/dap/message-parser.ts`, `src/dap/dap-client.ts` and
`src/session/session-manager.ts`: byte buffers are `List Nat`, JS strings
are Lean `String`s (unicode scalar values), JS `Map`s are association
lists with overwrite-on-set, and the platform primitives
(`JSON.stringify`/`JSON.parse`, `Buffer` UTF-8 coding) are modelled by
executable Lean functions following their documented behaviour.
-/

namespace Mcp

/-! ## UTF-8 byte model (Buffer.from(s, 'utf8') / Buffer.byteLength) -/

/-- UTF-8 encoding of one unicode scalar value, as a list of byte values.
Mirrors what Node's `Buffer.from(string, 'utf8')` produces per character. -/
def utf8Bytes (c : Char) : List Nat :=
  let v := c.toNat
  if v < 0x80 then [v]
  else if v < 0x800 then [0xC0 + v / 0x40, 0x80 + v % 0x40]
  else if v < 0x10000 then
    [0xE0 + v / 0x1000, 0x80 + (v / 0x40) % 0x40, 0x80 + v % 0x40]
  else
    [0xF0 + v / 0x40000, 0x80 + (v / 0x1000) % 0x40,
     0x80 + (v / 0x40) % 0x40, 0x80 + v % 0x40]

/-- UTF-8 encoding of a character list. -/
def charsBytes (cs : List Char) : List Nat := cs.flatMap utf8Bytes

/-- UTF-8 encoding of a string: the model of `Buffer.from(s, 'utf8')`. -/
def strBytes (s : String) : List Nat := charsBytes s.toList

/-- Model of `Buffer.byteLength(s, 'utf8')`. -/
def byteLength (s : String) : Nat := (strBytes s).length

/-- Decode one UTF-8 scalar value from the front of a byte list, returning
the code point and the remaining bytes. -/
def utf8DecodeOne (bs : List Nat) : Option (Nat × List Nat) :=
  match bs with
  | [] => none
  | b :: rest =>
    if b < 0x80 then some (b, rest)
    else if b < 0xC0 then none
    else if b < 0xE0 then
      match rest with
      | b2 :: rest2 =>
        if 0x80 ≤ b2 ∧ b2 < 0xC0 then
          some ((b - 0xC0) * 0x40 + (b2 - 0x80), rest2)
        else none
      | [] => none
    else if b < 0xF0 then
      match rest with
      | b2 :: b3 :: rest3 =>
        if (0x80 ≤ b2 ∧ b2 < 0xC0) ∧ (0x80 ≤ b3 ∧ b3 < 0xC0) then
          some ((b - 0xE0) * 0x1000 + (b2 - 0x80) * 0x40 + (b3 - 0x80), rest3)
        else none
      | _ => none
    else
      match rest with
      | b2 :: b3 :: b4 :: rest4 =>
        if (0x80 ≤ b2 ∧ b2 < 0xC0) ∧ (0x80 ≤ b3 ∧ b3 < 0xC0) ∧ (0x80 ≤ b4 ∧ b4 < 0xC0) then
          some ((b - 0xF0) * 0x40000 + (b2 - 0x80) * 0x1000 +
            (b3 - 0x80) * 0x40 + (b4 - 0x80), rest4)
        else none
      | _ => none

/-- Fuel-driven UTF-8 decoding loop; fuel at least the buffer length always
suffices because each scalar consumes at least one byte. -/
def utf8DecodeAux : Nat → List Nat → Option (List Char)
  | _, [] => some []
  | 0, _ :: _ => none
  | fuel+1, b :: rest =>
    match utf8DecodeOne (b :: rest) with
    | some (v, rest2) => (utf8DecodeAux fuel rest2).map (Char.ofNat v :: ·)
    | none => none

/-- Strict UTF-8 decoder (`buffer.toString('utf8')` on well-formed input;
Node substitutes U+FFFD on ill-formed input, our model returns `none`,
which only differs on buffers no theorem below touches). -/
def utf8Decode (bs : List Nat) : Option (List Char) :=
  utf8DecodeAux bs.length bs

theorem utf8DecodeOne_utf8Bytes (c : Char) (bs : List Nat) :
    utf8DecodeOne (utf8Bytes c ++ bs) = some (c.toNat, bs) := by
  have hv : c.toNat < 0x110000 := by
    rcases c.valid with h | h
    · exact Nat.lt_trans h (by norm_num)
    · exact h.2
  unfold utf8Bytes
  by_cases h1 : c.toNat < 0x80
  · simp [utf8DecodeOne, h1]
  · by_cases h2 : c.toNat < 0x800
    · have hb1 : ¬ (0xC0 + c.toNat / 0x40 < 0x80) := by omega
      have hb1' : ¬ (0xC0 + c.toNat / 0x40 < 0xC0) := by omega
      have hb1'' : 0xC0 + c.toNat / 0x40 < 0xE0 := by omega
      have hb2 : 0x80 ≤ 0x80 + c.toNat % 0x40 ∧ 0x80 + c.toNat % 0x40 < 0xC0 := by omega
      simp only [h1, h2, if_neg, if_pos, ite_false, ite_true, List.cons_append,
        List.nil_append, utf8DecodeOne, hb1, hb1', hb1'', hb2, and_self,
        not_false_eq_true]
      have : (0xC0 + c.toNat / 0x40 - 0xC0) * 0x40 + (0x80 + c.toNat % 0x40 - 0x80)
          = c.toNat := by omega
      rw [this]
    · by_cases h3 : c.toNat < 0x10000
      · have hb1 : ¬ (0xE0 + c.toNat / 0x1000 < 0x80) := by omega
        have hb1' : ¬ (0xE0 + c.toNat / 0x1000 < 0xC0) := by omega
        have hb1'' : ¬ (0xE0 + c.toNat / 0x1000 < 0xE0) := by omega
        have hb1''' : 0xE0 + c.toNat / 0x1000 < 0xF0 := by omega
        have hb2 : 0x80 ≤ 0x80 + (c.toNat / 0x40) % 0x40 ∧
            0x80 + (c.toNat / 0x40) % 0x40 < 0xC0 := by omega
        have hb3 : 0x80 ≤ 0x80 + c.toNat % 0x40 ∧ 0x80 + c.toNat % 0x40 < 0xC0 := by omega
        simp only [h1, h2, h3, if_neg, if_pos, ite_false, ite_true, List.cons_append,
          List.nil_append, utf8DecodeOne, hb1, hb1', hb1'', hb1''', hb2, hb3, and_self,
          not_false_eq_true]
        have : (0xE0 + c.toNat / 0x1000 - 0xE0) * 0x1000 +
            (0x80 + (c.toNat / 0x40) % 0x40 - 0x80) * 0x40 +
            (0x80 + c.toNat % 0x40 - 0x80) = c.toNat := by omega
        rw [this]
      · have hb1 : ¬ (0xF0 + c.toNat / 0x40000 < 0x80) := by omega
        have hb1' : ¬ (0xF0 + c.toNat / 0x40000 < 0xC0) := by omega
        have hb1'' : ¬ (0xF0 + c.toNat / 0x40000 < 0xE0) := by omega
        have hb1''' : ¬ (0xF0 + c.toNat / 0x40000 < 0xF0) := by omega
        have hb2 : 0x80 ≤ 0x80 + (c.toNat / 0x1000) % 0x40 ∧
            0x80 + (c.toNat / 0x1000) % 0x40 < 0xC0 := by omega
        have hb3 : 0x80 ≤ 0x80 + (c.toNat / 0x40) % 0x40 ∧
            0x80 + (c.toNat / 0x40) % 0x40 < 0xC0 := by omega
        have hb4 : 0x80 ≤ 0x80 + c.toNat % 0x40 ∧ 0x80 + c.toNat % 0x40 < 0xC0 := by omega
        simp only [h1, h2, h3, if_neg, ite_false, List.cons_append,
          List.nil_append, utf8DecodeOne, hb1, hb1', hb1'', hb1''', hb2, hb3, hb4,
          and_self, not_false_eq_true, ite_true]
        have : (0xF0 + c.toNat / 0x40000 - 0xF0) * 0x40000 +
            (0x80 + (c.toNat / 0x1000) % 0x40 - 0x80) * 0x1000 +
            (0x80 + (c.toNat / 0x40) % 0x40 - 0x80) * 0x40 +
            (0x80 + c.toNat % 0x40 - 0x80) = c.toNat := by omega
        rw [this]

theorem utf8Bytes_ne_nil (c : Char) : utf8Bytes c ≠ [] := by
  unfold utf8Bytes
  simp only []
  split
  · simp
  · split
    · simp
    · split <;> simp

theorem utf8DecodeAux_charsBytes (cs : List Char) :
    ∀ fuel, (charsBytes cs).length ≤ fuel →
      utf8DecodeAux fuel (charsBytes cs) = some cs := by
  induction cs with
  | nil => intro fuel _; cases fuel <;> rfl
  | cons c tl ih =>
    intro fuel hfuel
    have hsplit : charsBytes (c :: tl) = utf8Bytes c ++ charsBytes tl := by
      simp [charsBytes]
    obtain ⟨b, bs, hb⟩ : ∃ b bs, utf8Bytes c ++ charsBytes tl = b :: bs := by
      cases hcb : utf8Bytes c with
      | nil => exact absurd hcb (utf8Bytes_ne_nil c)
      | cons x xs => exact ⟨x, xs ++ charsBytes tl, by simp [hcb]⟩
    rw [hsplit] at hfuel ⊢
    have hlen : 1 ≤ (utf8Bytes c).length := by
      cases hcb : utf8Bytes c with
      | nil => exact absurd hcb (utf8Bytes_ne_nil c)
      | cons x xs => simp
    obtain ⟨f, rfl⟩ : ∃ f, fuel = f + 1 := by
      rcases fuel with _ | f
      · exfalso; rw [hb] at hfuel; simp at hfuel
      · exact ⟨f, rfl⟩
    rw [hb]
    show (match utf8DecodeOne (b :: bs) with
      | some (v, rest2) => (utf8DecodeAux f rest2).map (Char.ofNat v :: ·)
      | none => none) = some (c :: tl)
    rw [← hb, utf8DecodeOne_utf8Bytes]
    have htl : (charsBytes tl).length ≤ f := by
      have := List.length_append (utf8Bytes c) (charsBytes tl)
      omega
    simp only [ih f htl, Option.map_some, Char.ofNat_toNat]
    rfl

theorem utf8Decode_charsBytes (cs : List Char) :
    utf8Decode (charsBytes cs) = some cs :=
  utf8DecodeAux_charsBytes cs _ le_rfl

theorem utf8Decode_strBytes (s : String) :
    utf8Decode (strBytes s) = some s.toList :=
  utf8Decode_charsBytes s.toList

/-! ## JSON model (JSON.stringify / JSON.parse as used by the codec) -/

/-- Decimal digit character. -/
def digitChar : Nat → Char
  | 0 => '0' | 1 => '1' | 2 => '2' | 3 => '3' | 4 => '4'
  | 5 => '5' | 6 => '6' | 7 => '7' | 8 => '8' | _ => '9'

/-- ASCII decimal digit test. -/
def isDigitChar (c : Char) : Bool :=
  decide (48 ≤ c.toNat) && decide (c.toNat ≤ 57)

/-- Fuel-driven digit emitter behind `natToChars` (structural recursion, so
concrete decimal strings evaluate inside the kernel). -/
def natToCharsAux : Nat → Nat → List Char
  | 0, _ => []
  | fuel + 1, n =>
    if n < 10 then [digitChar n]
    else natToCharsAux fuel (n / 10) ++ [digitChar (n % 10)]

/-- Decimal representation of a natural number, most significant digit
first, as emitted by `JSON.stringify` for non-negative integers. -/
def natToChars (n : Nat) : List Char :=
  natToCharsAux (n + 1) n

theorem natToCharsAux_fuel : ∀ f1 f2 n, n < f1 → n < f2 →
    natToCharsAux f1 n = natToCharsAux f2 n := by
  intro f1
  induction f1 with
  | zero => intro f2 n h1 _; omega
  | succ f ih =>
    intro f2 n h1 h2
    cases f2 with
    | zero => omega
    | succ g =>
      show (if n < 10 then [digitChar n]
          else natToCharsAux f (n / 10) ++ [digitChar (n % 10)])
        = (if n < 10 then [digitChar n]
          else natToCharsAux g (n / 10) ++ [digitChar (n % 10)])
      by_cases h : n < 10
      · rw [if_pos h, if_pos h]
      · rw [if_neg h, if_neg h, ih g (n / 10) (by omega) (by omega)]

/-- The recurrence `natToChars` satisfies. -/
theorem natToChars_eq (n : Nat) :
    natToChars n = if n < 10 then [digitChar n]
      else natToChars (n / 10) ++ [digitChar (n % 10)] := by
  show (if n < 10 then [digitChar n]
      else natToCharsAux n (n / 10) ++ [digitChar (n % 10)]) = _
  by_cases h : n < 10
  · rw [if_pos h, if_pos h]
  · rw [if_neg h, if_neg h,
      natToCharsAux_fuel n (n / 10 + 1) (n / 10) (by omega) (by omega)]
    rfl

/-- Decimal representation of an integer (`JSON.stringify` for integers). -/
def intChars (i : Int) : List Char :=
  if i < 0 then '-' :: natToChars i.natAbs else natToChars i.natAbs

/-- Greedy decimal-digit scanner used by number parsing. -/
def parseNatAux (acc : Nat) : List Char → Nat × List Char
  | [] => (acc, [])
  | c :: rest =>
    if isDigitChar c then parseNatAux (acc * 10 + (c.toNat - 48)) rest
    else (acc, c :: rest)

/-- Parse a JSON integer (optional minus sign, then digits). -/
def parseNum (cs : List Char) : Option (Int × List Char) :=
  match cs with
  | [] => none
  | c :: rest =>
    if c = '-' then
      match rest with
      | c2 :: _ =>
        if isDigitChar c2 then
          some (-(((parseNatAux 0 rest).1 : Int)), (parseNatAux 0 rest).2)
        else none
      | [] => none
    else if isDigitChar c then
      some (((parseNatAux 0 (c :: rest)).1 : Int), (parseNatAux 0 (c :: rest)).2)
    else none

/-- The continuation after a printed number must not begin with a digit. -/
def notDigit : List Char → Prop
  | [] => True
  | c :: _ => ¬ (isDigitChar c = true)

theorem digitChar_spec : ∀ d, d < 10 →
    isDigitChar (digitChar d) = true ∧ (digitChar d).toNat - 48 = d := by decide

theorem natToChars_head (n : Nat) :
    ∃ d ds, natToChars n = d :: ds ∧ isDigitChar d = true := by
  induction n using Nat.strong_induction_on with
  | _ n ih =>
    by_cases h : n < 10
    · refine ⟨digitChar n, [], ?_, (digitChar_spec n h).1⟩
      rw [natToChars_eq]; simp [h]
    · obtain ⟨d, ds, hd, hdig⟩ := ih (n / 10) (by omega)
      refine ⟨d, ds ++ [digitChar (n % 10)], ?_, hdig⟩
      rw [natToChars_eq]; simp [h, hd]

theorem parseNatAux_natToChars (n : Nat) :
    ∀ acc rest, parseNatAux acc (natToChars n ++ rest)
      = parseNatAux (acc * 10 ^ (natToChars n).length + n) rest := by
  induction n using Nat.strong_induction_on with
  | _ n ih =>
    intro acc rest
    by_cases h : n < 10
    · rw [natToChars_eq, if_pos h]
      simp only [List.cons_append, List.nil_append, List.length_cons,
        List.length_nil, pow_one, zero_add, pow_zero]
      show (if isDigitChar (digitChar n) = true then
          parseNatAux (acc * 10 + ((digitChar n).toNat - 48)) rest
        else (acc, digitChar n :: rest)) = _
      rw [if_pos (digitChar_spec n h).1, (digitChar_spec n h).2]
    · rw [natToChars_eq, if_neg h]
      simp only [List.append_assoc, List.cons_append, List.nil_append]
      rw [ih (n / 10) (by omega) acc (digitChar (n % 10) :: rest)]
      show (if isDigitChar (digitChar (n % 10)) = true then
          parseNatAux ((acc * 10 ^ (natToChars (n / 10)).length + n / 10) * 10 +
            ((digitChar (n % 10)).toNat - 48)) rest
        else _) = _
      rw [if_pos (digitChar_spec (n % 10) (by omega)).1,
        (digitChar_spec (n % 10) (by omega)).2]
      have hlen : (natToChars (n / 10) ++ [digitChar (n % 10)]).length
          = (natToChars (n / 10)).length + 1 := by simp
      rw [hlen]
      congr 1
      have : 10 ^ ((natToChars (n / 10)).length + 1)
          = 10 ^ (natToChars (n / 10)).length * 10 := pow_succ 10 _
      rw [this]
      have hdm := Nat.div_add_mod n 10
      set L := 10 ^ (natToChars (n / 10)).length
      ring_nf
      omega

theorem parseNatAux_stop (acc : Nat) (cs : List Char) (h : notDigit cs) :
    parseNatAux acc cs = (acc, cs) := by
  cases cs with
  | nil => rfl
  | cons c rest =>
    show (if isDigitChar c = true then _ else (acc, c :: rest)) = _
    rw [if_neg h]

theorem parseNum_negCase (cs : List Char) (d : Char) (ds : List Char)
    (hcs : cs = d :: ds) (hdig : isDigitChar d = true) :
    parseNum ('-' :: cs)
      = some (-(((parseNatAux 0 cs).1 : Int)), (parseNatAux 0 cs).2) := by
  subst hcs
  simp [parseNum, hdig]

theorem parseNum_posCase (d : Char) (ds : List Char) (hdig : isDigitChar d = true) :
    parseNum (d :: ds)
      = some ((((parseNatAux 0 (d :: ds)).1 : Int)), (parseNatAux 0 (d :: ds)).2) := by
  have hd45 : ¬ (d = '-') := by
    intro hcontra
    rw [hcontra] at hdig
    exact absurd hdig (by decide)
  simp [parseNum, hd45, hdig]

theorem parseNum_intChars (i : Int) (rest : List Char) (h : notDigit rest) :
    parseNum (intChars i ++ rest) = some (i, rest) := by
  obtain ⟨d, ds, hd, hdig⟩ := natToChars_head i.natAbs
  have hval : parseNatAux 0 (natToChars i.natAbs ++ rest) = (i.natAbs, rest) := by
    rw [parseNatAux_natToChars, zero_mul, zero_add, parseNatAux_stop _ _ h]
  by_cases hneg : i < 0
  · simp only [intChars, hneg, ite_true, List.cons_append]
    rw [parseNum_negCase (natToChars i.natAbs ++ rest) d (ds ++ rest)
      (by rw [hd]; simp) hdig, hval]
    simp only [Option.some.injEq, Prod.mk.injEq, and_true]
    omega
  · simp only [intChars, hneg, ite_false]
    have hsplit : natToChars i.natAbs ++ rest = d :: (ds ++ rest) := by
      rw [hd]; simp
    rw [hsplit, parseNum_posCase d (ds ++ rest) hdig, ← hsplit, hval]
    simp only [Option.some.injEq, Prod.mk.injEq, and_true]
    omega

/-- Lowercase hexadecimal digit character. -/
def hexDigitChar : Nat → Char
  | 0 => '0' | 1 => '1' | 2 => '2' | 3 => '3' | 4 => '4'
  | 5 => '5' | 6 => '6' | 7 => '7' | 8 => '8' | 9 => '9'
  | 10 => 'a' | 11 => 'b' | 12 => 'c' | 13 => 'd' | 14 => 'e' | _ => 'f'

/-- Hexadecimal digit value. -/
def hexVal (c : Char) : Option Nat :=
  if isDigitChar c then some (c.toNat - 48)
  else if 97 ≤ c.toNat ∧ c.toNat ≤ 102 then some (c.toNat - 87)
  else if 65 ≤ c.toNat ∧ c.toNat ≤ 70 then some (c.toNat - 55)
  else none

/-- JSON string escaping of one character, following `JSON.stringify`:
quote, backslash and the named control escapes use two-character escapes,
remaining control characters use a six-character escape of the form
backslash-u-0-0-hex-hex, and every other character (including non-ASCII)
is emitted literally. -/
def escapeChar (c : Char) : List Char :=
  if c = '"' then ['\\', '"']
  else if c = '\\' then ['\\', '\\']
  else if c = '\x08' then ['\\', 'b']
  else if c = '\x0c' then ['\\', 'f']
  else if c = '\n' then ['\\', 'n']
  else if c = '\x0d' then ['\\', 'r']
  else if c = '\t' then ['\\', 't']
  else if c.toNat < 32 then
    ['\\', 'u', '0', '0', hexDigitChar (c.toNat / 16), hexDigitChar (c.toNat % 16)]
  else [c]

/-- Escape a whole character list. -/
def escChars (cs : List Char) : List Char := cs.flatMap escapeChar

/-- Decode one (possibly escaped) character of a JSON string body. -/
def unescapeOne (cs : List Char) : Option (Char × List Char) :=
  match cs with
  | [] => none
  | c :: rest =>
    if c = '\\' then
      match rest with
      | [] => none
      | e :: rest2 =>
        if e = '"' then some ('"', rest2)
        else if e = '\\' then some ('\\', rest2)
        else if e = '/' then some ('/', rest2)
        else if e = 'b' then some ('\x08', rest2)
        else if e = 'f' then some ('\x0c', rest2)
        else if e = 'n' then some ('\n', rest2)
        else if e = 'r' then some ('\x0d', rest2)
        else if e = 't' then some ('\t', rest2)
        else if e = 'u' then
          match rest2 with
          | h1 :: h2 :: h3 :: h4 :: r =>
            match hexVal h1, hexVal h2, hexVal h3, hexVal h4 with
            | some v1, some v2, some v3, some v4 =>
              some (Char.ofNat (((v1 * 16 + v2) * 16 + v3) * 16 + v4), r)
            | _, _, _, _ => none
          | _ => none
        else none
    else some (c, rest)

/-- Fuel-driven JSON string-body parser: reads characters until the closing
quote. -/
def parseStrAux : Nat → List Char → Option (List Char × List Char)
  | 0, _ => none
  | fuel+1, cs =>
    match cs with
    | [] => none
    | c :: rest =>
      if c = '"' then some ([], rest)
      else
        match unescapeOne (c :: rest) with
        | some (d, r) => (parseStrAux fuel r).map (fun p => (d :: p.1, p.2))
        | none => none

/-- Parse a JSON string body (input starts right after the opening quote). -/
def parseStringFrom (cs : List Char) : Option (List Char × List Char) :=
  parseStrAux cs.length cs

theorem hexVal_hexDigitChar : ∀ v, v < 16 → hexVal (hexDigitChar v) = some v := by
  decide

theorem unescapeOne_escapeChar (c : Char) (rest : List Char) :
    unescapeOne (escapeChar c ++ rest) = some (c, rest) := by
  by_cases h1 : c = '"'
  · subst h1; simp [escapeChar, unescapeOne]
  by_cases h2 : c = '\\'
  · subst h2; simp [escapeChar, unescapeOne, h1]
  by_cases h3 : c = '\x08'
  · subst h3; simp [escapeChar, unescapeOne]
  by_cases h4 : c = '\x0c'
  · subst h4; simp [escapeChar, unescapeOne]
  by_cases h5 : c = '\n'
  · subst h5; simp [escapeChar, unescapeOne]
  by_cases h6 : c = '\x0d'
  · subst h6; simp [escapeChar, unescapeOne]
  by_cases h7 : c = '\t'
  · subst h7; simp [escapeChar, unescapeOne]
  by_cases h8 : c.toNat < 32
  · have hhi : c.toNat / 16 < 16 := by omega
    have hlo : c.toNat % 16 < 16 := by omega
    have hv0 : hexVal '0' = some 0 := by decide
    have hval : ((0 * 16 + 0) * 16 + c.toNat / 16) * 16 + c.toNat % 16 = c.toNat := by
      omega
    simp only [escapeChar, h1, h2, h3, h4, h5, h6, h7, h8, ite_false, ite_true,
      List.cons_append, List.nil_append]
    simp only [unescapeOne, hv0, hexVal_hexDigitChar _ hhi, hexVal_hexDigitChar _ hlo,
      hval, Char.ofNat_toNat, ite_true, ite_false]
    simp [hv0, hexVal_hexDigitChar _ hhi, hexVal_hexDigitChar _ hlo]
  · simp only [escapeChar, h1, h2, h3, h4, h5, h6, h7, h8, ite_false,
      List.cons_append, List.nil_append]
    simp [unescapeOne, h2]

theorem escapeChar_cons (c : Char) :
    ∃ d ds, escapeChar c = d :: ds ∧ ¬ (d = '"') := by
  by_cases h1 : c = '"'
  · exact ⟨'\\', ['"'], by subst h1; rfl, by decide⟩
  by_cases h2 : c = '\\'
  · exact ⟨'\\', ['\\'], by subst h2; rfl, by decide⟩
  by_cases h3 : c = '\x08'
  · exact ⟨'\\', ['b'], by subst h3; rfl, by decide⟩
  by_cases h4 : c = '\x0c'
  · exact ⟨'\\', ['f'], by subst h4; rfl, by decide⟩
  by_cases h5 : c = '\n'
  · exact ⟨'\\', ['n'], by subst h5; rfl, by decide⟩
  by_cases h6 : c = '\x0d'
  · exact ⟨'\\', ['r'], by subst h6; rfl, by decide⟩
  by_cases h7 : c = '\t'
  · exact ⟨'\\', ['t'], by subst h7; rfl, by decide⟩
  by_cases h8 : c.toNat < 32
  · exact ⟨'\\', ['u', '0', '0', hexDigitChar (c.toNat / 16), hexDigitChar (c.toNat % 16)],
      by simp [escapeChar, h1, h2, h3, h4, h5, h6, h7, h8], by decide⟩
  · exact ⟨c, [], by simp [escapeChar, h1, h2, h3, h4, h5, h6, h7, h8], h1⟩

theorem parseStrAux_escChars (cs : List Char) :
    ∀ fuel rest, (escChars cs).length + 1 ≤ fuel →
      parseStrAux fuel (escChars cs ++ '"' :: rest) = some (cs, rest) := by
  induction cs with
  | nil =>
    intro fuel rest hfuel
    obtain ⟨f, rfl⟩ : ∃ f, fuel = f + 1 := by
      rcases fuel with _ | f
      · exfalso; simp [escChars] at hfuel
      · exact ⟨f, rfl⟩
    simp [escChars, parseStrAux]
  | cons c tl ih =>
    intro fuel rest hfuel
    have hsplit : escChars (c :: tl) = escapeChar c ++ escChars tl := by
      simp [escChars]
    obtain ⟨d, ds, hd, hdq⟩ := escapeChar_cons c
    rw [hsplit] at hfuel ⊢
    obtain ⟨f, rfl⟩ : ∃ f, fuel = f + 1 := by
      rcases fuel with _ | f
      · exfalso; omega
      · exact ⟨f, rfl⟩
    have hshape : escapeChar c ++ escChars tl ++ '"' :: rest
        = d :: (ds ++ (escChars tl ++ '"' :: rest)) := by
      rw [hd]; simp
    rw [hshape]
    show (if d = '"' then some ([], ds ++ (escChars tl ++ '"' :: rest))
      else match unescapeOne (d :: (ds ++ (escChars tl ++ '"' :: rest))) with
        | some (e, r) => (parseStrAux f r).map (fun p => (e :: p.1, p.2))
        | none => none) = some (c :: tl, rest)
    rw [if_neg hdq]
    have huo : unescapeOne (d :: (ds ++ (escChars tl ++ '"' :: rest)))
        = some (c, escChars tl ++ '"' :: rest) := by
      have : d :: (ds ++ (escChars tl ++ '"' :: rest))
          = escapeChar c ++ (escChars tl ++ '"' :: rest) := by
        rw [hd]; simp
      rw [this, unescapeOne_escapeChar]
    rw [huo]
    have hlen : 1 ≤ (escapeChar c).length := by
      rw [hd]; simp
    have htl : (escChars tl).length + 1 ≤ f := by
      have := List.length_append (escapeChar c) (escChars tl)
      omega
    show (parseStrAux f (escChars tl ++ '"' :: rest)).map (fun p => (c :: p.1, p.2))
      = some (c :: tl, rest)
    rw [ih f rest htl]
    rfl

/-! ## JSON values, JSON.stringify and JSON.parse -/

mutual
/-- JSON values (the `JSON.stringify`-encodable messages exchanged on the
DAP wire; numbers are modelled as integers, which covers every field of a
DAP protocol message). -/
inductive Json where
  | null : Json
  | boolean : Bool → Json
  | num : Int → Json
  | str : String → Json
  | arr : JsonItems → Json
  | obj : JsonFields → Json
  deriving DecidableEq

/-- A list of JSON array items. -/
inductive JsonItems where
  | nil : JsonItems
  | cons : Json → JsonItems → JsonItems
  deriving DecidableEq

/-- A list of JSON object fields (key/value pairs, in insertion order,
as `JSON.stringify` serializes them). -/
inductive JsonFields where
  | nil : JsonFields
  | cons : String → Json → JsonFields → JsonFields
  deriving DecidableEq
end

mutual
/-- Characters emitted by `JSON.stringify` for a JSON value. -/
def jsonChars : Json → List Char
  | .null => ['n', 'u', 'l', 'l']
  | .boolean true => ['t', 'r', 'u', 'e']
  | .boolean false => ['f', 'a', 'l', 's', 'e']
  | .num i => intChars i
  | .str s => '"' :: (escChars s.toList ++ ['"'])
  | .arr its => '[' :: (itemsChars its ++ [']'])
  | .obj fs => '{' :: (fieldsChars fs ++ ['}'])

/-- Serialized array items, comma separated. -/
def itemsChars : JsonItems → List Char
  | .nil => []
  | .cons j .nil => jsonChars j
  | .cons j (.cons j2 tl) => jsonChars j ++ ',' :: itemsChars (.cons j2 tl)

/-- Serialized object fields, comma separated. -/
def fieldsChars : JsonFields → List Char
  | .nil => []
  | .cons k v .nil => '"' :: (escChars k.toList ++ '"' :: ':' :: jsonChars v)
  | .cons k v (.cons k2 v2 tl) =>
    ('"' :: (escChars k.toList ++ '"' :: ':' :: jsonChars v)) ++
      ',' :: fieldsChars (.cons k2 v2 tl)
end

/-- Model of `JSON.stringify`. -/
def jsonStringify (j : Json) : String := String.mk (jsonChars j)

mutual
/-- Model of `JSON.parse` (value level): fuel-driven recursive descent over
the grammar emitted by `jsonStringify`. -/
def jsonParseVal : Nat → List Char → Option (Json × List Char)
  | 0, _ => none
  | fuel+1, cs =>
    match cs with
    | [] => none
    | c :: rest =>
      if c = 'n' then
        match rest with
        | 'u' :: 'l' :: 'l' :: r => some (.null, r)
        | _ => none
      else if c = 't' then
        match rest with
        | 'r' :: 'u' :: 'e' :: r => some (.boolean true, r)
        | _ => none
      else if c = 'f' then
        match rest with
        | 'a' :: 'l' :: 's' :: 'e' :: r => some (.boolean false, r)
        | _ => none
      else if c = '"' then
        match parseStringFrom rest with
        | some (body, r) => some (.str (String.mk body), r)
        | none => none
      else if c = '[' then
        match rest with
        | [] => none
        | d :: r2 =>
          if d = ']' then some (.arr .nil, r2)
          else
            match jsonParseItems fuel (d :: r2) with
            | some (its, r) => some (.arr its, r)
            | none => none
      else if c = '{' then
        match rest with
        | [] => none
        | d :: r2 =>
          if d = '}' then some (.obj .nil, r2)
          else
            match jsonParseFields fuel (d :: r2) with
            | some (fs, r) => some (.obj fs, r)
            | none => none
      else
        match parseNum (c :: rest) with
        | some (i, r) => some (.num i, r)
        | none => none

/-- Parse one or more array items, consuming the closing bracket. -/
def jsonParseItems : Nat → List Char → Option (JsonItems × List Char)
  | 0, _ => none
  | fuel+1, cs =>
    match jsonParseVal fuel cs with
    | some (j, r) =>
      match r with
      | [] => none
      | d :: r2 =>
        if d = ',' then
          match jsonParseItems fuel r2 with
          | some (tl, r3) => some (.cons j tl, r3)
          | none => none
        else if d = ']' then some (.cons j .nil, r2)
        else none
    | none => none

/-- Parse one or more object fields, consuming the closing brace. -/
def jsonParseFields : Nat → List Char → Option (JsonFields × List Char)
  | 0, _ => none
  | fuel+1, cs =>
    match cs with
    | [] => none
    | c :: rest =>
      if c = '"' then
        match parseStringFrom rest with
        | some (key, r1) =>
          match r1 with
          | [] => none
          | d :: r2 =>
            if d = ':' then
              match jsonParseVal fuel r2 with
              | some (v, r3) =>
                match r3 with
                | [] => none
                | e :: r4 =>
                  if e = ',' then
                    match jsonParseFields fuel r4 with
                    | some (tl, r5) => some (.cons (String.mk key) v tl, r5)
                    | none => none
                  else if e = '}' then some (.cons (String.mk key) v .nil, r4)
                  else none
              | none => none
            else none
        | none => none
      else none
end

/-- Model of `JSON.parse` on a whole string: the value must consume the
entire input (JS throws on trailing characters). -/
def jsonParse (s : String) : Option Json :=
  match jsonParseVal (s.toList.length + 1) s.toList with
  | some (j, []) => some j
  | _ => none

theorem stringMk_toList (s : String) : String.mk s.toList = s := by
  cases s; rfl

theorem stringMk_data (s : String) : String.mk s.data = s := rfl

theorem notDigit_cons (c : Char) (x : List Char) (h : isDigitChar c = false) :
    notDigit (c :: x) := by
  show ¬ (isDigitChar c = true)
  simp [h]

theorem intChars_head (i : Int) :
    ∃ d ds, intChars i = d :: ds ∧ (d = '-' ∨ isDigitChar d = true) := by
  unfold intChars
  by_cases h : i < 0
  · simp only [h, ite_true]
    exact ⟨'-', natToChars i.natAbs, rfl, Or.inl rfl⟩
  · obtain ⟨d, ds, hd, hdig⟩ := natToChars_head i.natAbs
    simp only [h, ite_false]
    exact ⟨d, ds, hd, Or.inr hdig⟩

theorem numHead_ne (d : Char) (h : d = '-' ∨ isDigitChar d = true) :
    ¬ d = 'n' ∧ ¬ d = 't' ∧ ¬ d = 'f' ∧ ¬ d = '"' ∧ ¬ d = '[' ∧ ¬ d = '{' ∧
      ¬ d = ']' ∧ ¬ d = '}' := by
  rcases h with rfl | h
  · exact ⟨by decide, by decide, by decide, by decide, by decide, by decide,
      by decide, by decide⟩
  · refine ⟨?_, ?_, ?_, ?_, ?_, ?_, ?_, ?_⟩ <;>
      (intro he; subst he; exact absurd h (by decide))

theorem jsonChars_head (j : Json) :
    ∃ d ds, jsonChars j = d :: ds ∧ ¬ d = ']' ∧ ¬ d = '}' := by
  cases j with
  | null => exact ⟨'n', ['u', 'l', 'l'], rfl, by decide, by decide⟩
  | boolean b =>
    cases b with
    | true => exact ⟨'t', ['r', 'u', 'e'], rfl, by decide, by decide⟩
    | false => exact ⟨'f', ['a', 'l', 's', 'e'], rfl, by decide, by decide⟩
  | num i =>
    obtain ⟨d, ds, hd, hcase⟩ := intChars_head i
    have h8 := numHead_ne d hcase
    exact ⟨d, ds, hd, h8.2.2.2.2.2.2.1, h8.2.2.2.2.2.2.2⟩
  | str s => exact ⟨'"', escChars s.toList ++ ['"'], rfl, by decide, by decide⟩
  | arr its => exact ⟨'[', itemsChars its ++ [']'], rfl, by decide, by decide⟩
  | obj fs => exact ⟨'{', fieldsChars fs ++ ['}'], rfl, by decide, by decide⟩

theorem jsonChars_length_pos (j : Json) : 1 ≤ (jsonChars j).length := by
  obtain ⟨d, ds, hd, _, _⟩ := jsonChars_head j
  rw [hd]; simp

theorem itemsChars_head (j : Json) (tl : JsonItems) :
    ∃ d es, itemsChars (.cons j tl) = d :: es ∧ ¬ d = ']' := by
  obtain ⟨d, ds, hd, hdr, _⟩ := jsonChars_head j
  cases tl with
  | nil => exact ⟨d, ds, by simp [itemsChars, hd], hdr⟩
  | cons j2 tl2 =>
    exact ⟨d, ds ++ ',' :: itemsChars (.cons j2 tl2), by simp [itemsChars, hd], hdr⟩

mutual

theorem jsonParseVal_jsonChars : ∀ (j : Json) (fuel : Nat) (rest : List Char),
    (jsonChars j).length ≤ fuel → notDigit rest →
    jsonParseVal fuel (jsonChars j ++ rest) = some (j, rest)
  | .null, fuel, rest, hf, _ => by
    rcases fuel with _ | f
    · exfalso; have := jsonChars_length_pos .null; omega
    show jsonParseVal (f + 1) ('n' :: 'u' :: 'l' :: 'l' :: rest) = some (.null, rest)
    simp [jsonParseVal]
  | .boolean true, fuel, rest, hf, _ => by
    rcases fuel with _ | f
    · exfalso; have := jsonChars_length_pos (.boolean true); omega
    show jsonParseVal (f + 1) ('t' :: 'r' :: 'u' :: 'e' :: rest) = some (.boolean true, rest)
    simp [jsonParseVal]
  | .boolean false, fuel, rest, hf, _ => by
    rcases fuel with _ | f
    · exfalso; have := jsonChars_length_pos (.boolean false); omega
    show jsonParseVal (f + 1) ('f' :: 'a' :: 'l' :: 's' :: 'e' :: rest)
      = some (.boolean false, rest)
    simp [jsonParseVal]
  | .num i, fuel, rest, hf, hr => by
    rcases fuel with _ | f
    · exfalso; have := jsonChars_length_pos (.num i); omega
    obtain ⟨d, ds, hd, hcase⟩ := intChars_head i
    have h8 := numHead_ne d hcase
    have hshape : jsonChars (.num i) ++ rest = d :: (ds ++ rest) := by
      show intChars i ++ rest = _
      rw [hd]; simp
    have hnum : parseNum (d :: (ds ++ rest)) = some (i, rest) := by
      rw [show d :: (ds ++ rest) = intChars i ++ rest from by rw [hd]; simp]
      exact parseNum_intChars i rest hr
    rw [hshape]
    simp [jsonParseVal, h8.1, h8.2.1, h8.2.2.1, h8.2.2.2.1, h8.2.2.2.2.1,
      h8.2.2.2.2.2.1, hnum]
  | .str s, fuel, rest, hf, _ => by
    rcases fuel with _ | f
    · exfalso; have := jsonChars_length_pos (.str s); omega
    have hshape : jsonChars (.str s) ++ rest
        = '"' :: (escChars s.data ++ '"' :: rest) := by
      show '"' :: (escChars s.toList ++ ['"']) ++ rest = _
      simp [String.toList]
    have hps : parseStringFrom (escChars s.data ++ '"' :: rest)
        = some (s.data, rest) := by
      unfold parseStringFrom
      apply parseStrAux_escChars
      simp
    rw [hshape]
    simp [jsonParseVal, hps, stringMk_data]
  | .arr .nil, fuel, rest, hf, _ => by
    rcases fuel with _ | f
    · exfalso; have := jsonChars_length_pos (.arr .nil); omega
    show jsonParseVal (f + 1) ('[' :: ']' :: rest) = some (.arr .nil, rest)
    simp [jsonParseVal]
  | .arr (.cons j tl), fuel, rest, hf, _ => by
    rcases fuel with _ | f
    · exfalso; have := jsonChars_length_pos (.arr (.cons j tl)); omega
    obtain ⟨d, es, hde, hdr⟩ := itemsChars_head j tl
    have hshape : jsonChars (.arr (.cons j tl)) ++ rest
        = '[' :: (d :: (es ++ ']' :: rest)) := by
      show '[' :: (itemsChars (.cons j tl) ++ [']']) ++ rest = _
      rw [hde]; simp
    have hlen : (itemsChars (.cons j tl)).length < f := by
      have hL : (jsonChars (.arr (.cons j tl))).length
          = (itemsChars (.cons j tl)).length + 2 := by
        show ('[' :: (itemsChars (.cons j tl) ++ [']'])).length = _
        simp
      omega
    have hrec := jsonParseItems_itemsChars (.cons j tl) f rest (by simp) hlen
    have hrec2 : jsonParseItems f (d :: (es ++ ']' :: rest))
        = some (.cons j tl, rest) := by
      rw [show d :: (es ++ ']' :: rest) = itemsChars (.cons j tl) ++ ']' :: rest from by
        rw [hde]; simp]
      exact hrec
    rw [hshape]
    simp [jsonParseVal, hdr, hrec2]
  | .obj .nil, fuel, rest, hf, _ => by
    rcases fuel with _ | f
    · exfalso; have := jsonChars_length_pos (.obj .nil); omega
    show jsonParseVal (f + 1) ('{' :: '}' :: rest) = some (.obj .nil, rest)
    simp [jsonParseVal]
  | .obj (.cons k v tl), fuel, rest, hf, _ => by
    rcases fuel with _ | f
    · exfalso; have := jsonChars_length_pos (.obj (.cons k v tl)); omega
    obtain ⟨es, hes⟩ : ∃ es, fieldsChars (.cons k v tl) = '"' :: es := by
      cases tl with
      | nil => exact ⟨_, rfl⟩
      | cons k2 v2 tl2 => exact ⟨_, rfl⟩
    have hshape : jsonChars (.obj (.cons k v tl)) ++ rest
        = '{' :: ('"' :: (es ++ '}' :: rest)) := by
      show '{' :: (fieldsChars (.cons k v tl) ++ ['}']) ++ rest = _
      rw [hes]; simp
    have hlen : (fieldsChars (.cons k v tl)).length < f := by
      have hL : (jsonChars (.obj (.cons k v tl))).length
          = (fieldsChars (.cons k v tl)).length + 2 := by
        show ('{' :: (fieldsChars (.cons k v tl) ++ ['}'])).length = _
        simp
      omega
    have hrec := jsonParseFields_fieldsChars (.cons k v tl) f rest (by simp) hlen
    have hrec2 : jsonParseFields f ('"' :: (es ++ '}' :: rest))
        = some (.cons k v tl, rest) := by
      rw [show '"' :: (es ++ '}' :: rest) = fieldsChars (.cons k v tl) ++ '}' :: rest from by
        rw [hes]; simp]
      exact hrec
    rw [hshape]
    simp [jsonParseVal, hrec2]

theorem jsonParseItems_itemsChars : ∀ (its : JsonItems) (fuel : Nat) (rest : List Char),
    its ≠ .nil → (itemsChars its).length < fuel →
    jsonParseItems fuel (itemsChars its ++ ']' :: rest) = some (its, rest)
  | .nil, _, _, hne, _ => absurd rfl hne
  | .cons j .nil, fuel, rest, _, hf => by
    rcases fuel with _ | f
    · omega
    have hlenJ : (jsonChars j).length ≤ f := by
      have : itemsChars (.cons j .nil) = jsonChars j := rfl
      rw [this] at hf; omega
    have hval := jsonParseVal_jsonChars j f (']' :: rest) hlenJ
      (notDigit_cons ']' rest (by decide))
    show jsonParseItems (f + 1) (jsonChars j ++ ']' :: rest) = some (.cons j .nil, rest)
    simp [jsonParseItems, hval]
  | .cons j (.cons j2 tl2), fuel, rest, _, hf => by
    rcases fuel with _ | f
    · omega
    have hsplit : itemsChars (.cons j (.cons j2 tl2))
        = jsonChars j ++ ',' :: itemsChars (.cons j2 tl2) := rfl
    have hposJ := jsonChars_length_pos j
    have hlenJ : (jsonChars j).length ≤ f := by
      rw [hsplit] at hf; simp at hf; omega
    have hlenTl : (itemsChars (.cons j2 tl2)).length < f := by
      rw [hsplit] at hf; simp at hf; omega
    have hval := jsonParseVal_jsonChars j f
      (',' :: (itemsChars (.cons j2 tl2) ++ ']' :: rest)) hlenJ
      (notDigit_cons ',' _ (by decide))
    have hrec := jsonParseItems_itemsChars (.cons j2 tl2) f rest (by simp) hlenTl
    have hshape : itemsChars (.cons j (.cons j2 tl2)) ++ ']' :: rest
        = jsonChars j ++ (',' :: (itemsChars (.cons j2 tl2) ++ ']' :: rest)) := by
      rw [hsplit]; simp
    rw [hshape]
    simp [jsonParseItems, hval, hrec]

theorem jsonParseFields_fieldsChars : ∀ (fs : JsonFields) (fuel : Nat) (rest : List Char),
    fs ≠ .nil → (fieldsChars fs).length < fuel →
    jsonParseFields fuel (fieldsChars fs ++ '}' :: rest) = some (fs, rest)
  | .nil, _, _, hne, _ => absurd rfl hne
  | .cons k v .nil, fuel, rest, _, hf => by
    rcases fuel with _ | f
    · omega
    have hsplit : fieldsChars (.cons k v .nil)
        = '"' :: (escChars k.toList ++ '"' :: ':' :: jsonChars v) := rfl
    have hlenV : (jsonChars v).length ≤ f := by
      rw [hsplit] at hf; simp at hf; omega
    have hshape : fieldsChars (.cons k v .nil) ++ '}' :: rest
        = '"' :: (escChars k.data ++ '"' :: (':' :: (jsonChars v ++ '}' :: rest))) := by
      rw [hsplit]; simp [String.toList]
    have hps : parseStringFrom (escChars k.data ++ '"' :: (':' :: (jsonChars v ++ '}' :: rest)))
        = some (k.data, ':' :: (jsonChars v ++ '}' :: rest)) := by
      unfold parseStringFrom
      apply parseStrAux_escChars
      simp
    have hval := jsonParseVal_jsonChars v f ('}' :: rest) hlenV
      (notDigit_cons '}' rest (by decide))
    rw [hshape]
    simp [jsonParseFields, hps, hval, stringMk_data]
  | .cons k v (.cons k2 v2 tl2), fuel, rest, _, hf => by
    rcases fuel with _ | f
    · omega
    have hsplit : fieldsChars (.cons k v (.cons k2 v2 tl2))
        = ('"' :: (escChars k.toList ++ '"' :: ':' :: jsonChars v)) ++
            ',' :: fieldsChars (.cons k2 v2 tl2) := rfl
    have hposV := jsonChars_length_pos v
    have hlenV : (jsonChars v).length ≤ f := by
      rw [hsplit] at hf; simp at hf; omega
    have hlenTl : (fieldsChars (.cons k2 v2 tl2)).length < f := by
      rw [hsplit] at hf; simp at hf; omega
    have hshape : fieldsChars (.cons k v (.cons k2 v2 tl2)) ++ '}' :: rest
        = '"' :: (escChars k.data ++ '"' :: (':' ::
            (jsonChars v ++ (',' :: (fieldsChars (.cons k2 v2 tl2) ++ '}' :: rest))))) := by
      rw [hsplit]; simp [String.toList]
    have hps : parseStringFrom (escChars k.data ++ '"' ::
          (':' :: (jsonChars v ++ (',' :: (fieldsChars (.cons k2 v2 tl2) ++ '}' :: rest)))))
        = some (k.data, ':' ::
            (jsonChars v ++ (',' :: (fieldsChars (.cons k2 v2 tl2) ++ '}' :: rest)))) := by
      unfold parseStringFrom
      apply parseStrAux_escChars
      simp
    have hval := jsonParseVal_jsonChars v f
      (',' :: (fieldsChars (.cons k2 v2 tl2) ++ '}' :: rest)) hlenV
      (notDigit_cons ',' _ (by decide))
    have hrec := jsonParseFields_fieldsChars (.cons k2 v2 tl2) f rest (by simp) hlenTl
    rw [hshape]
    simp [jsonParseFields, hps, hval, hrec, stringMk_data]

end

theorem jsonParse_jsonStringify (j : Json) : jsonParse (jsonStringify j) = some j := by
  unfold jsonParse jsonStringify
  have h1 : (String.mk (jsonChars j)).toList = jsonChars j := rfl
  rw [h1]
  have h2 := jsonParseVal_jsonChars j ((jsonChars j).length + 1) [] (by omega) trivial
  rw [List.append_nil] at h2
  rw [h2]

/-! ## Framed codec (`src/dap/message-parser.ts`) -/

/-- Result of one `tryParse` call: `noMsg` models the `null` return (both
the need-more-data and the discarded-invalid-header paths), `msg` models a
returned `ParsedMessage` with its `bytesConsumed`, and `fatal` models the
thrown `Failed to parse DAP message JSON` error. -/
inductive TryParseOut where
  | noMsg : TryParseOut
  | msg : Json → Nat → TryParseOut
  | fatal : TryParseOut
  deriving DecidableEq

/-- Byte index of the first `\r\n\r\n` in the buffer.  The source searches
the UTF-8-decoded string (`bufferStr.indexOf`) and then recomputes the byte
offset with `Buffer.byteLength(headerSection)`; on well-formed UTF-8 buffers
(the only ones the theorems below feed it) the two agree with this direct
byte search. -/
def findSeparator : List Nat → Option Nat
  | [] => none
  | b :: rest =>
    if b = 13 then
      match rest with
      | 10 :: 13 :: 10 :: _ => some 0
      | _ => (findSeparator rest).map (· + 1)
    else (findSeparator rest).map (· + 1)

/-- Decode the ASCII header section to characters (headers are ASCII per
the DAP spec; the source decodes them as UTF-8). -/
def asciiDecode (bs : List Nat) : List Char := bs.map Char.ofNat

/-- Split a character list on `\r\n` (the `headerSection.split('\r\n')`). -/
def splitCRLF : List Char → List (List Char)
  | [] => [[]]
  | [c] => [[c]]
  | c :: c2 :: rest =>
    if c = '\x0d' ∧ c2 = '\x0a' then [] :: splitCRLF rest
    else
      match splitCRLF (c2 :: rest) with
      | g :: gs => (c :: g) :: gs
      | [] => [[c]]

/-- Split a header line at its first colon (`line.indexOf(':')`). -/
def splitFirstColon (cs : List Char) : Option (List Char × List Char) :=
  match cs with
  | [] => none
  | c :: rest =>
    if c = ':' then some ([], rest)
    else (splitFirstColon rest).map (fun p => (c :: p.1, p.2))

/-- ASCII whitespace test used by `trim`. -/
def isSpaceChar (c : Char) : Bool :=
  decide (c = ' ') || decide (c = '\t') || decide (c = '\x0d') || decide (c = '\x0a')

/-- Model of `String.prototype.trim` (ASCII whitespace suffices here). -/
def trimChars (cs : List Char) : List Char :=
  ((cs.dropWhile isSpaceChar).reverse.dropWhile isSpaceChar).reverse

/-- ASCII lower-casing (`key.toLowerCase()`). -/
def toLowerChar (c : Char) : Char :=
  if 65 ≤ c.toNat ∧ c.toNat ≤ 90 then Char.ofNat (c.toNat + 32) else c

/-- Parse header lines into key/value pairs (`DapMessageParser.parseHeaders`):
lines without a colon are skipped, keys are trimmed and lower-cased, values
are trimmed.  Pairs are kept in order; the `Map.set` overwrite semantics are
captured by `headersGet` returning the last match. -/
def parseHeaderLines (lines : List (List Char)) : List (String × String) :=
  match lines with
  | [] => []
  | line :: rest =>
    match splitFirstColon line with
    | some (k, v) =>
      (String.mk (trimChars k |>.map toLowerChar), String.mk (trimChars v)) ::
        parseHeaderLines rest
    | none => parseHeaderLines rest

/-- Lookup in the header map (`headers.get(key)`): last `set` wins. -/
def headersGet (hs : List (String × String)) (k : String) : Option String :=
  (hs.reverse.find? (fun p => decide (p.1 = k))).map (·.2)

/-- Model of JS `parseInt(str, 10)`: skip leading whitespace, optional
sign, then greedy digits; `none` models `NaN`. -/
def jsParseInt (s : String) : Option Int :=
  match s.toList.dropWhile isSpaceChar with
  | [] => none
  | c :: rest =>
    if c = '-' then
      match rest with
      | c2 :: _ =>
        if isDigitChar c2 then some (-(((parseNatAux 0 rest).1 : Int))) else none
      | [] => none
    else if c = '+' then
      match rest with
      | c2 :: _ =>
        if isDigitChar c2 then some (((parseNatAux 0 rest).1 : Int)) else none
      | [] => none
    else if isDigitChar c then some (((parseNatAux 0 (c :: rest)).1 : Int))
    else none

/-- Header map of the header section ending at byte `headerEnd`. -/
def headersAt (buffer : List Nat) (headerEnd : Nat) : List (String × String) :=
  parseHeaderLines (splitCRLF (asciiDecode (buffer.take headerEnd)))

/-- Body-slicing stage of `tryParse`: the `Content-Length` value `n` has
been read; check completeness, slice the body bytes, UTF-8 decode them and
run `JSON.parse`. -/
def tryParseBody (buffer : List Nat) (headerEnd n : Nat) : TryParseOut × List Nat :=
  let headerBytes := headerEnd + 4
  let totalBytes := headerBytes + n
  if buffer.length < totalBytes then (.noMsg, buffer)
  else
    match utf8Decode ((buffer.drop headerBytes).take n) with
    | none => (.fatal, buffer.drop totalBytes)
    | some bodyChars =>
      match jsonParse (String.mk bodyChars) with
      | some m => (.msg m totalBytes, buffer.drop totalBytes)
      | none => (.fatal, buffer.drop totalBytes)

/-- Header-validation stage of `tryParse`: a complete header block has been
found; a missing or non-numeric or negative `Content-Length` discards the
header block and returns `null`. -/
def tryParseWithHeader (buffer : List Nat) (headerEnd : Nat) : TryParseOut × List Nat :=
  match headersGet (headersAt buffer headerEnd) "content-length" with
  | none => (.noMsg, buffer.drop (headerEnd + 4))
  | some lenStr =>
    match jsParseInt lenStr with
    | none => (.noMsg, buffer.drop (headerEnd + 4))
    | some len =>
      if len < 0 then (.noMsg, buffer.drop (headerEnd + 4))
      else tryParseBody buffer headerEnd len.toNat

/-- Model of `DapMessageParser.tryParse`, acting on the byte buffer and
returning the updated buffer alongside the result. -/
def tryParse (buffer : List Nat) : TryParseOut × List Nat :=
  match findSeparator buffer with
  | none => (.noMsg, buffer)
  | some headerEnd => tryParseWithHeader buffer headerEnd

/-- Loop of `DapMessageParser.parseAll`: repeat `tryParse` while it returns
a message.  The boolean marks the thrown-exception path.  Fuel at least the
buffer length always suffices (each message consumes at least four bytes). -/
def parseAllAux : Nat → List Nat → List Json → List Json × List Nat × Bool
  | 0, buf, acc => (acc.reverse, buf, false)
  | fuel+1, buf, acc =>
    match tryParse buf with
    | (.noMsg, buf2) => (acc.reverse, buf2, false)
    | (.msg m _, buf2) => parseAllAux fuel buf2 (m :: acc)
    | (.fatal, buf2) => (acc.reverse, buf2, true)

/-- Model of `DapMessageParser.parseAll`. -/
def parseAll (buf : List Nat) : List Json × List Nat × Bool :=
  parseAllAux (buf.length + 1) buf []

/-- Model of `encodeMessage`: the `Content-Length` header value is the
UTF-8 byte length of the JSON body. -/
def encodeMessage (m : Json) : String :=
  String.mk ("Content-Length: ".toList ++
    natToChars ((strBytes (jsonStringify m)).length) ++
    '\x0d' :: '\x0a' :: '\x0d' :: '\x0a' :: jsonChars m)

theorem isDigitChar_bounds {c : Char} (h : isDigitChar c = true) :
    48 ≤ c.toNat ∧ c.toNat ≤ 57 := by
  simpa [isDigitChar] using h

theorem natToChars_all_digits (n : Nat) :
    ∀ c ∈ natToChars n, isDigitChar c = true := by
  induction n using Nat.strong_induction_on with
  | _ n ih =>
    by_cases h : n < 10
    · rw [natToChars_eq, if_pos h]
      simp only [List.mem_singleton]
      rintro c rfl
      exact (digitChar_spec n h).1
    · rw [natToChars_eq, if_neg h]
      simp only [List.mem_append, List.mem_singleton]
      rintro c (hc | rfl)
      · exact ih (n / 10) (by omega) c hc
      · exact (digitChar_spec (n % 10) (by omega)).1

theorem utf8Bytes_ascii {c : Char} (h : c.toNat < 128) : utf8Bytes c = [c.toNat] := by
  unfold utf8Bytes
  simp [h]

theorem charsBytes_ascii {cs : List Char} (h : ∀ c ∈ cs, c.toNat < 128) :
    charsBytes cs = cs.map Char.toNat := by
  induction cs with
  | nil => rfl
  | cons c tl ih =>
    show utf8Bytes c ++ charsBytes tl = _
    rw [utf8Bytes_ascii (h c (by simp)), ih (fun x hx => h x (by simp [hx]))]
    rfl

theorem asciiDecode_map_toNat (cs : List Char) :
    asciiDecode (cs.map Char.toNat) = cs := by
  induction cs with
  | nil => rfl
  | cons c tl ih =>
    show Char.ofNat c.toNat :: asciiDecode (tl.map Char.toNat) = c :: tl
    rw [Char.ofNat_toNat, ih]

theorem findSeparator_append (pre suf : List Nat) (h : ∀ b ∈ pre, ¬ b = 13) :
    findSeparator (pre ++ 13 :: 10 :: 13 :: 10 :: suf) = some pre.length := by
  induction pre with
  | nil => rfl
  | cons b bs ih =>
    have hb : ¬ b = 13 := h b (by simp)
    have ihs := ih (fun x hx => h x (by simp [hx]))
    simp only [List.cons_append]
    rw [show findSeparator (b :: (bs ++ 13 :: 10 :: 13 :: 10 :: suf))
        = (findSeparator (bs ++ 13 :: 10 :: 13 :: 10 :: suf)).map (· + 1) from by
      simp [findSeparator, hb]]
    rw [ihs]
    simp

theorem splitCRLF_single : ∀ (cs : List Char), (∀ c ∈ cs, ¬ c = '\x0d') →
    splitCRLF cs = [cs]
  | [], _ => rfl
  | [c], _ => rfl
  | c :: c2 :: rest, h => by
    have hc : ¬ c = '\x0d' := h c (by simp)
    have ihs := splitCRLF_single (c2 :: rest) (fun x hx => h x (by
      simp only [List.mem_cons] at hx ⊢
      tauto))
    have hcond : ¬ (c = '\x0d' ∧ c2 = '\x0a') := fun hp => hc hp.1
    simp [splitCRLF, hcond, ihs]

theorem splitFirstColon_append (pre suf : List Char) (h : ∀ c ∈ pre, ¬ c = ':') :
    splitFirstColon (pre ++ ':' :: suf) = some (pre, suf) := by
  induction pre with
  | nil => simp [splitFirstColon]
  | cons c rest ih =>
    have hc : ¬ c = ':' := h c (by simp)
    have ihs := ih (fun x hx => h x (by simp [hx]))
    simp [splitFirstColon, hc, ihs]

theorem dropWhile_notSpace {cs : List Char} (h : ∀ c ∈ cs, isDigitChar c = true) :
    cs.dropWhile isSpaceChar = cs := by
  cases cs with
  | nil => rfl
  | cons c rest =>
    have hd := isDigitChar_bounds (h c (by simp))
    have : isSpaceChar c = false := by
      unfold isSpaceChar
      have h1 : ¬ c = ' ' := fun he => by subst he; exact absurd hd (by decide)
      have h2 : ¬ c = '\t' := fun he => by subst he; exact absurd hd (by decide)
      have h3 : ¬ c = '\x0d' := fun he => by subst he; exact absurd hd (by decide)
      have h4 : ¬ c = '\x0a' := fun he => by subst he; exact absurd hd (by decide)
      simp [h1, h2, h3, h4]
    simp [List.dropWhile_cons, this]

theorem trimChars_space_digits (ds : List Char)
    (h : ∀ c ∈ ds, isDigitChar c = true) :
    trimChars (' ' :: ds) = ds := by
  unfold trimChars
  have h1 : (' ' :: ds).dropWhile isSpaceChar = ds := by
    rw [List.dropWhile_cons]
    simp only [show isSpaceChar ' ' = true from by decide, ite_true]
    exact dropWhile_notSpace h
  rw [h1]
  have h2 : ds.reverse.dropWhile isSpaceChar = ds.reverse := by
    have : ∀ c ∈ ds.reverse, isDigitChar c = true := by
      intro c hc; exact h c (List.mem_reverse.mp hc)
    exact dropWhile_notSpace this
  rw [h2, List.reverse_reverse]

theorem jsParseInt_digits (n : Nat) :
    jsParseInt (String.mk (natToChars n)) = some (n : Int) := by
  unfold jsParseInt
  have htl : (String.mk (natToChars n)).toList = natToChars n := rfl
  rw [htl, dropWhile_notSpace (natToChars_all_digits n)]
  obtain ⟨d, ds, hd, hdig⟩ := natToChars_head n
  have hdm : ¬ d = '-' := by
    intro he; subst he; exact absurd hdig (by decide)
  have hdp : ¬ d = '+' := by
    intro he; subst he; exact absurd hdig (by decide)
  rw [hd]
  simp only [hdm, hdp, ite_false, hdig, ite_true]
  have : parseNatAux 0 (d :: ds) = (n, []) := by
    rw [← hd, ← List.append_nil (natToChars n), parseNatAux_natToChars,
      zero_mul, zero_add]
    rfl
  rw [this]

/-- The character form of the header emitted by `encodeMessage`. -/
def clHeaderChars (n : Nat) : List Char := "Content-Length: ".toList ++ natToChars n

theorem charsBytes_append (xs ys : List Char) :
    charsBytes (xs ++ ys) = charsBytes xs ++ charsBytes ys := by
  simp [charsBytes]

theorem clHeaderChars_ascii (n : Nat) : ∀ c ∈ clHeaderChars n, c.toNat < 128 := by
  have hlit : ∀ c ∈ "Content-Length: ".toList, c.toNat < 128 := by decide
  intro c hc
  rcases List.mem_append.mp hc with hc | hc
  · exact hlit c hc
  · have := isDigitChar_bounds (natToChars_all_digits n c hc)
    omega

theorem clHeaderChars_noCR (n : Nat) : ∀ c ∈ clHeaderChars n, ¬ c = '\x0d' := by
  have hlit : ∀ c ∈ "Content-Length: ".toList, ¬ c = '\x0d' := by decide
  intro c hc
  rcases List.mem_append.mp hc with hc | hc
  · exact hlit c hc
  · have := isDigitChar_bounds (natToChars_all_digits n c hc)
    intro he
    subst he
    exact absurd this (by decide)

theorem clHeaderBytes_no13 (n : Nat) :
    ∀ b ∈ charsBytes (clHeaderChars n), ¬ b = 13 := by
  rw [charsBytes_ascii (clHeaderChars_ascii n)]
  intro b hb
  obtain ⟨c, hc, rfl⟩ := List.mem_map.mp hb
  intro h13
  have hcr : c = '\x0d' := by
    have := Char.ofNat_toNat c
    rw [h13] at this
    rw [← this]
  exact clHeaderChars_noCR n c hc hcr

theorem encodeMessage_bytes (m : Json) :
    strBytes (encodeMessage m)
      = charsBytes (clHeaderChars ((strBytes (jsonStringify m)).length)) ++
          13 :: 10 :: 13 :: 10 :: charsBytes (jsonChars m) := by
  show charsBytes (("Content-Length: ".toList ++
      natToChars ((strBytes (jsonStringify m)).length) ++
      '\x0d' :: '\x0a' :: '\x0d' :: '\x0a' :: jsonChars m)) = _
  rw [show ("Content-Length: ".toList ++
      natToChars ((strBytes (jsonStringify m)).length) ++
      '\x0d' :: '\x0a' :: '\x0d' :: '\x0a' :: jsonChars m)
    = clHeaderChars ((strBytes (jsonStringify m)).length) ++
      ('\x0d' :: '\x0a' :: '\x0d' :: '\x0a' :: jsonChars m) from by
    simp [clHeaderChars]]
  rw [charsBytes_append]
  rfl

theorem strBytes_jsonStringify (m : Json) :
    strBytes (jsonStringify m) = charsBytes (jsonChars m) := rfl

theorem headersAt_encodeMessage (m : Json) :
    headersGet (headersAt (strBytes (encodeMessage m))
        (charsBytes (clHeaderChars ((strBytes (jsonStringify m)).length))).length)
        "content-length"
      = some (String.mk (natToChars ((strBytes (jsonStringify m)).length))) := by
  set B := (strBytes (jsonStringify m)).length with hB
  unfold headersAt
  have htake : (strBytes (encodeMessage m)).take (charsBytes (clHeaderChars B)).length
      = charsBytes (clHeaderChars B) := by
    rw [encodeMessage_bytes m, ← hB, List.take_left]
  rw [htake]
  have hdec : asciiDecode (charsBytes (clHeaderChars B)) = clHeaderChars B := by
    rw [charsBytes_ascii (clHeaderChars_ascii B), asciiDecode_map_toNat]
  rw [hdec, splitCRLF_single _ (clHeaderChars_noCR B)]
  have hsplitcl : clHeaderChars B
      = "Content-Length".toList ++ ':' :: (' ' :: natToChars B) := rfl
  have hcolon : splitFirstColon (clHeaderChars B)
      = some ("Content-Length".toList, ' ' :: natToChars B) := by
    rw [hsplitcl]
    exact splitFirstColon_append _ _ (by decide)
  show headersGet (match splitFirstColon (clHeaderChars B) with
    | some (k, v) =>
      (String.mk (trimChars k |>.map toLowerChar), String.mk (trimChars v)) ::
        parseHeaderLines []
    | none => parseHeaderLines []) "content-length" = _
  rw [hcolon]
  have hkey : String.mk ((trimChars ("Content-Length".toList)).map toLowerChar)
      = "content-length" := by decide
  have hval : trimChars (' ' :: natToChars B) = natToChars B :=
    trimChars_space_digits _ (natToChars_all_digits B)
  show headersGet [(String.mk ((trimChars ("Content-Length".toList)).map toLowerChar),
    String.mk (trimChars (' ' :: natToChars B)))] "content-length" = _
  rw [hkey, hval]
  simp [headersGet]

theorem tryParse_encodeMessage (m : Json) :
    tryParse (strBytes (encodeMessage m))
      = (.msg m ((strBytes (encodeMessage m)).length), []) := by
  set B := (strBytes (jsonStringify m)).length with hB
  set HB := charsBytes (clHeaderChars B) with hHB
  have hbytes := encodeMessage_bytes m
  rw [← hB, ← hHB] at hbytes
  have hfind : findSeparator (strBytes (encodeMessage m)) = some HB.length := by
    rw [hbytes]
    exact findSeparator_append _ _ (by rw [hHB]; exact clHeaderBytes_no13 B)
  unfold tryParse
  rw [hfind]
  show tryParseWithHeader (strBytes (encodeMessage m)) HB.length = _
  unfold tryParseWithHeader
  have hhdr := headersAt_encodeMessage m
  rw [← hB, ← hHB] at hhdr
  rw [hhdr]
  show (match jsParseInt (String.mk (natToChars B)) with
    | none => (TryParseOut.noMsg, (strBytes (encodeMessage m)).drop (HB.length + 4))
    | some len =>
      if len < 0 then (TryParseOut.noMsg, (strBytes (encodeMessage m)).drop (HB.length + 4))
      else tryParseBody (strBytes (encodeMessage m)) HB.length len.toNat) = _
  rw [jsParseInt_digits B]
  have hneg : ¬ ((B : Int) < 0) := by omega
  show (if ((B : Int)) < 0 then
      (TryParseOut.noMsg, (strBytes (encodeMessage m)).drop (HB.length + 4))
    else tryParseBody (strBytes (encodeMessage m)) HB.length ((B : Int)).toNat) = _
  rw [if_neg hneg]
  have htoNat : ((B : Int)).toNat = B := rfl
  rw [htoNat]
  unfold tryParseBody
  have hbodyB : B = (charsBytes (jsonChars m)).length := by
    rw [hB, strBytes_jsonStringify]
  have hlen : (strBytes (encodeMessage m)).length = HB.length + 4 + B := by
    rw [hbytes]
    simp [hbodyB]
    omega
  have hnotlt : ¬ ((strBytes (encodeMessage m)).length < HB.length + 4 + B) := by
    omega
  simp only [hnotlt, ite_false]
  have hdrop : (strBytes (encodeMessage m)).drop (HB.length + 4)
      = charsBytes (jsonChars m) := by
    rw [hbytes]
    rw [show HB ++ 13 :: 10 :: 13 :: 10 :: charsBytes (jsonChars m)
        = (HB ++ [13, 10, 13, 10]) ++ charsBytes (jsonChars m) from by simp]
    rw [show HB.length + 4 = (HB ++ [13, 10, 13, 10]).length from by simp]
    exact List.drop_left _ _
  rw [hdrop]
  have htakeB : (charsBytes (jsonChars m)).take B = charsBytes (jsonChars m) := by
    rw [hbodyB]
    exact List.take_length _
  rw [htakeB, utf8Decode_charsBytes]
  have hjp : jsonParse (String.mk (jsonChars m)) = some m := jsonParse_jsonStringify m
  show (match jsonParse (String.mk (jsonChars m)) with
    | some m2 => (TryParseOut.msg m2 (HB.length + 4 + B),
        (strBytes (encodeMessage m)).drop (HB.length + 4 + B))
    | none => (TryParseOut.fatal,
        (strBytes (encodeMessage m)).drop (HB.length + 4 + B))) = _
  rw [hjp]
  have hdropAll : (strBytes (encodeMessage m)).drop (HB.length + 4 + B) = [] := by
    rw [show HB.length + 4 + B = (strBytes (encodeMessage m)).length from by omega]
    exact List.drop_length _
  show (TryParseOut.msg m (HB.length + 4 + B),
      (strBytes (encodeMessage m)).drop (HB.length + 4 + B)) = _
  rw [hdropAll, ← hlen]

/-- The `Content-Length` value a parser extracts from the front of a
buffer (the header-extraction slice of `tryParse`). -/
def contentLengthOf (buffer : List Nat) : Option Int :=
  match findSeparator buffer with
  | none => none
  | some headerEnd =>
    match headersGet (headersAt buffer headerEnd) "content-length" with
    | none => none
    | some v => jsParseInt v

set_option maxHeartbeats 1000000 in
theorem contentLengthOf_encodeMessage (m : Json) :
    contentLengthOf (strBytes (encodeMessage m))
      = some (((strBytes (jsonStringify m)).length : Int)) := by
  set B := (strBytes (jsonStringify m)).length with hB
  set HB := charsBytes (clHeaderChars B) with hHB
  have hbytes := encodeMessage_bytes m
  rw [← hB, ← hHB] at hbytes
  have hfind : findSeparator (strBytes (encodeMessage m)) = some HB.length := by
    rw [hbytes]
    exact findSeparator_append _ _ (by rw [hHB]; exact clHeaderBytes_no13 B)
  unfold contentLengthOf
  rw [hfind]
  have hhdr := headersAt_encodeMessage m
  rw [← hB, ← hHB] at hhdr
  show (match headersGet (headersAt (strBytes (encodeMessage m)) HB.length)
      "content-length" with
    | none => none
    | some v => jsParseInt v) = _
  rw [hhdr]
  show jsParseInt (String.mk (natToChars B)) = _
  rw [jsParseInt_digits B]

theorem asciiBytes_no13 {cs : List Char} (hascii : ∀ c ∈ cs, c.toNat < 128)
    (hnoCR : ∀ c ∈ cs, ¬ c = '\x0d') :
    ∀ b ∈ charsBytes cs, ¬ b = 13 := by
  rw [charsBytes_ascii hascii]
  intro b hb
  obtain ⟨c, hc, rfl⟩ := List.mem_map.mp hb
  intro h13
  have hcr : c = '\x0d' := by
    have := Char.ofNat_toNat c
    rw [h13] at this
    rw [← this]
  exact hnoCR c hc hcr

/-- A header block whose headers either lack `content-length` or carry a
non-numeric value is discarded and `tryParse` returns `null` with the
buffer resynchronized after the separator. -/
theorem tryParse_invalidHeader (hdr : List Char) (rest : List Nat)
    (hascii : ∀ c ∈ hdr, c.toNat < 128)
    (hnoCR : ∀ c ∈ hdr, ¬ c = '\x0d')
    (hbad : headersGet (parseHeaderLines (splitCRLF hdr)) "content-length" = none ∨
      ∃ v, headersGet (parseHeaderLines (splitCRLF hdr)) "content-length" = some v ∧
        jsParseInt v = none) :
    tryParse (charsBytes hdr ++ 13 :: 10 :: 13 :: 10 :: rest) = (.noMsg, rest) := by
  have hfind : findSeparator (charsBytes hdr ++ 13 :: 10 :: 13 :: 10 :: rest)
      = some (charsBytes hdr).length :=
    findSeparator_append _ _ (asciiBytes_no13 hascii hnoCR)
  have htake : (charsBytes hdr ++ 13 :: 10 :: 13 :: 10 :: rest).take (charsBytes hdr).length
      = charsBytes hdr := List.take_left _ _
  have hdrop : (charsBytes hdr ++ 13 :: 10 :: 13 :: 10 :: rest).drop
      ((charsBytes hdr).length + 4) = rest := by
    rw [show charsBytes hdr ++ 13 :: 10 :: 13 :: 10 :: rest
        = (charsBytes hdr ++ [13, 10, 13, 10]) ++ rest from by simp]
    rw [show (charsBytes hdr).length + 4 = (charsBytes hdr ++ [13, 10, 13, 10]).length from by
      simp]
    exact List.drop_left _ _
  have hdec : asciiDecode (charsBytes hdr) = hdr := by
    rw [charsBytes_ascii hascii, asciiDecode_map_toNat]
  unfold tryParse
  rw [hfind]
  show tryParseWithHeader (charsBytes hdr ++ 13 :: 10 :: 13 :: 10 :: rest)
    (charsBytes hdr).length = _
  unfold tryParseWithHeader headersAt
  rw [htake, hdec]
  rcases hbad with hnone | ⟨v, hsome, hnan⟩
  · rw [hnone, hdrop]
  · rw [hsome]
    show (match jsParseInt v with
      | none => (TryParseOut.noMsg,
          (charsBytes hdr ++ 13 :: 10 :: 13 :: 10 :: rest).drop ((charsBytes hdr).length + 4))
      | some len =>
        if len < 0 then (TryParseOut.noMsg,
          (charsBytes hdr ++ 13 :: 10 :: 13 :: 10 :: rest).drop ((charsBytes hdr).length + 4))
        else tryParseBody (charsBytes hdr ++ 13 :: 10 :: 13 :: 10 :: rest)
          (charsBytes hdr).length len.toNat) = _
    rw [hnan, hdrop]

theorem parseAllAux_nil (fuel : Nat) (acc : List Json) :
    parseAllAux fuel [] acc = (acc.reverse, [], false) := by
  cases fuel <;> rfl

theorem parseAll_encodeMessage (m : Json) :
    parseAll (strBytes (encodeMessage m)) = ([m], [], false) := by
  unfold parseAll
  show parseAllAux ((strBytes (encodeMessage m)).length + 1)
    (strBytes (encodeMessage m)) [] = _
  rw [show parseAllAux ((strBytes (encodeMessage m)).length + 1)
      (strBytes (encodeMessage m)) []
    = (match tryParse (strBytes (encodeMessage m)) with
      | (.noMsg, buf2) => (([] : List Json).reverse, buf2, false)
      | (.msg mm _, buf2) => parseAllAux ((strBytes (encodeMessage m)).length) buf2 [mm]
      | (.fatal, buf2) => (([] : List Json).reverse, buf2, true)) from rfl]
  rw [tryParse_encodeMessage m]
  show parseAllAux ((strBytes (encodeMessage m)).length) [] [m] = _
  rw [parseAllAux_nil]
  rfl

theorem parseAll_invalidHeader (hdr : List Char) (m : Json)
    (hascii : ∀ c ∈ hdr, c.toNat < 128)
    (hnoCR : ∀ c ∈ hdr, ¬ c = '\x0d')
    (hbad : headersGet (parseHeaderLines (splitCRLF hdr)) "content-length" = none ∨
      ∃ v, headersGet (parseHeaderLines (splitCRLF hdr)) "content-length" = some v ∧
        jsParseInt v = none) :
    parseAll (charsBytes hdr ++ 13 :: 10 :: 13 :: 10 :: strBytes (encodeMessage m))
      = ([], strBytes (encodeMessage m), false) := by
  unfold parseAll
  set buf := charsBytes hdr ++ 13 :: 10 :: 13 :: 10 :: strBytes (encodeMessage m) with hbuf
  show parseAllAux (buf.length + 1) buf [] = _
  rw [show parseAllAux (buf.length + 1) buf []
    = (match tryParse buf with
      | (.noMsg, buf2) => (([] : List Json).reverse, buf2, false)
      | (.msg mm _, buf2) => parseAllAux (buf.length) buf2 [mm]
      | (.fatal, buf2) => (([] : List Json).reverse, buf2, true)) from rfl]
  rw [hbuf, tryParse_invalidHeader hdr _ hascii hnoCR hbad]
  rfl

/-! ## DAP connection and client (`src/dap/dap-client.ts`) -/

/-- One outstanding request (`PendingRequest`); the promise identity is the
`seq` key under which it is stored, so only the command is carried. -/
structure PendingReq where
  command : String
  deriving DecidableEq

/-- The fields of a DAP response that `handleResponse` reads. -/
structure DapResponse where
  request_seq : Nat
  success : Bool
  message : Option String
  deriving DecidableEq

/-- An outbound DAP request as `sendRequest`/`sendRequestToChild` build it. -/
structure DapRequest where
  seq : Nat
  command : String
  arguments : Option Json
  deriving DecidableEq

/-- Sequence counter and pending-request table of one DAP connection. -/
structure ConnState where
  sequenceNumber : Nat
  pendingRequests : List (Nat × PendingReq)
  deriving DecidableEq

/-- A fresh connection (`sequenceNumber = 1`, empty pending table). -/
def ConnState.fresh : ConnState := ⟨1, []⟩

/-- Lookup in the pending table (`this.pendingRequests.get(seq)`). -/
def pendingLookup (tbl : List (Nat × PendingReq)) (k : Nat) : Option PendingReq :=
  (tbl.find? (fun p => decide (p.1 = k))).map (·.2)

/-- Removal from the pending table (`this.pendingRequests.delete(seq)`). -/
def pendingDelete (tbl : List (Nat × PendingReq)) (k : Nat) : List (Nat × PendingReq) :=
  tbl.filter (fun p => decide (¬ p.1 = k))

/-- How a pending promise was settled. -/
inductive Settled where
  | resolved (seq : Nat) (r : DapResponse)
  | rejected (seq : Nat) (msg : String)
  deriving DecidableEq

/-- Model of `DapClient.handleResponse`: look up `request_seq`; if absent
the response is stale and ignored; otherwise remove the entry and resolve
on success or reject with `message ?? "Request '<command>' failed"`. -/
def handleResponse (st : ConnState) (r : DapResponse) : ConnState × Option Settled :=
  match pendingLookup st.pendingRequests r.request_seq with
  | none => (st, none)
  | some pending =>
    let st2 : ConnState := ⟨st.sequenceNumber, pendingDelete st.pendingRequests r.request_seq⟩
    if r.success then (st2, some (.resolved r.request_seq r))
    else (st2, some (.rejected r.request_seq
      (r.message.getD ("Request \x27" ++ pending.command ++ "\x27 failed"))))

/-- Deliver a list of responses in order, collecting the settlements. -/
def processResponses (st : ConnState) : List DapResponse → ConnState × List Settled
  | [] => (st, [])
  | r :: rest =>
    let out := handleResponse st r
    let outs := processResponses out.1 rest
    (outs.1, out.2.toList ++ outs.2)

theorem pendingLookup_of_mem {tbl : List (Nat × PendingReq)} {k : Nat}
    (h : k ∈ tbl.map Prod.fst) : ∃ p, pendingLookup tbl k = some p := by
  induction tbl with
  | nil => simp at h
  | cons e rest ih =>
    by_cases he : e.1 = k
    · exact ⟨e.2, by simp [pendingLookup, List.find?_cons, he]⟩
    · have h2 : k ∈ rest.map Prod.fst := by
        simp only [List.map_cons, List.mem_cons] at h
        rcases h with h | h
        · exact absurd h.symm he
        · exact h
      obtain ⟨p, hp⟩ := ih h2
      refine ⟨p, ?_⟩
      unfold pendingLookup at hp ⊢
      rw [List.find?_cons]
      simp only [he, decide_eq_false, Bool.false_eq_true, not_false_eq_true]
      exact hp

theorem mem_pendingDelete_keys {tbl : List (Nat × PendingReq)} {a k : Nat}
    (ha : a ∈ tbl.map Prod.fst) (hne : ¬ a = k) :
    a ∈ (pendingDelete tbl k).map Prod.fst := by
  unfold pendingDelete
  obtain ⟨p, hp, rfl⟩ := List.mem_map.mp ha
  exact List.mem_map.mpr ⟨p, List.mem_filter.mpr ⟨hp, by simpa using hne⟩, rfl⟩

/-- Order-independent correlation: delivering successful responses whose
`request_seq`s are distinct and all pending settles each promise with
exactly the response carrying its own `seq`, in arrival order. -/
theorem processResponses_correlate :
    ∀ (rs : List DapResponse) (st : ConnState),
      (∀ r ∈ rs, r.success = true) →
      (∀ r ∈ rs, r.request_seq ∈ st.pendingRequests.map Prod.fst) →
      (rs.map DapResponse.request_seq).Nodup →
      (processResponses st rs).2 = rs.map (fun r => Settled.resolved r.request_seq r) := by
  intro rs
  induction rs with
  | nil => intro st _ _ _; rfl
  | cons r rest ih =>
    intro st hsucc hmem hnodup
    obtain ⟨p, hp⟩ := pendingLookup_of_mem (hmem r (by simp))
    have hhr : handleResponse st r
        = (⟨st.sequenceNumber, pendingDelete st.pendingRequests r.request_seq⟩,
            some (.resolved r.request_seq r)) := by
      have hs := hsucc r (by simp)
      simp [handleResponse, hp, hs]
    have hhead := (List.nodup_cons.mp hnodup).1
    have hnodup2 := (List.nodup_cons.mp hnodup).2
    have hmem2 : ∀ r2 ∈ rest, r2.request_seq ∈
        (pendingDelete st.pendingRequests r.request_seq).map Prod.fst := by
      intro r2 hr2
      apply mem_pendingDelete_keys (hmem r2 (by simp [hr2]))
      intro he
      exact hhead (by rw [← he]; exact List.mem_map.mpr ⟨r2, hr2, rfl⟩)
    show (handleResponse st r).2.toList ++
      (processResponses (handleResponse st r).1 rest).2 = _
    rw [hhr]
    show [Settled.resolved r.request_seq r] ++
      (processResponses ⟨st.sequenceNumber,
        pendingDelete st.pendingRequests r.request_seq⟩ rest).2 = _
    rw [ih _ (fun r2 h => hsucc r2 (by simp [h])) hmem2 hnodup2]
    simp

/-- A response whose `request_seq` matches no pending request leaves the
state unchanged and settles nothing. -/
theorem handleResponse_stale (st : ConnState) (r : DapResponse)
    (h : pendingLookup st.pendingRequests r.request_seq = none) :
    handleResponse st r = (st, none) := by
  unfold handleResponse
  rw [h]

/-- A child session (`ChildSession`): its own socket (the channel), its own
sequence counter and its own pending-request table, tagged by `targetId`. -/
structure ChildSessionState where
  targetId : String
  sequenceNumber : Nat
  pendingRequests : List (Nat × PendingReq)
  deriving DecidableEq

/-- The routing-relevant state of a `DapClient`: the primary connection and
the optional active child session. -/
structure DapClientState where
  primary : ConnState
  activeChildSession : Option ChildSessionState
  deriving DecidableEq

/-- Which connection a request was written to. -/
inductive Channel where
  | primary : Channel
  | child (targetId : String) : Channel
  deriving DecidableEq

/-- Model of `DapClient.sendRequest`: allocate a primary `seq`
(post-increment), register the pending record, write to the primary
transport. -/
def sendRequest (st : DapClientState) (command : String) (args : Option Json) :
    DapClientState × DapRequest × Channel :=
  let seq := st.primary.sequenceNumber
  ({ st with primary := ⟨seq + 1, (seq, ⟨command⟩) :: st.primary.pendingRequests⟩ },
    ⟨seq, command, args⟩, .primary)

/-- Model of `DapClient.sendRequestToChild`: throws when no active child
session exists (`none`); otherwise allocates a seq from the child session counter, registers the pending record in the child session table
(via `waitForChildResponse`) and writes to the child session socket. -/
def sendRequestToChild (st : DapClientState) (command : String) (args : Option Json) :
    Option (DapClientState × DapRequest × Channel) :=
  match st.activeChildSession with
  | none => none
  | some child =>
    let seq := child.sequenceNumber
    let child2 : ChildSessionState :=
      ⟨child.targetId, seq + 1, (seq, ⟨command⟩) :: child.pendingRequests⟩
    some ({ st with activeChildSession := some child2 },
      ⟨seq, command, args⟩, .child child.targetId)

/-- The shared routing pattern of the thread/frame-scoped operations:
`this.activeChildSession ? this.sendRequestToChild(...) : this.sendRequest(...)`. -/
def routedRequest (st : DapClientState) (command : String) (args : Option Json) :
    DapClientState × DapRequest × Channel :=
  match sendRequestToChild st command args with
  | some out => out
  | none => sendRequest st command args

/-- `DapClient.threads`. -/
def threadsOp (st : DapClientState) : DapClientState × DapRequest × Channel :=
  routedRequest st "threads" none

/-- `DapClient.stackTrace`. -/
def stackTraceOp (st : DapClientState) (threadId : Int) :
    DapClientState × DapRequest × Channel :=
  routedRequest st "stackTrace" (some (.obj (.cons "threadId" (.num threadId) .nil)))

/-- `DapClient.scopes`. -/
def scopesOp (st : DapClientState) (frameId : Int) :
    DapClientState × DapRequest × Channel :=
  routedRequest st "scopes" (some (.obj (.cons "frameId" (.num frameId) .nil)))

/-- `DapClient.variables`. -/
def variablesOp (st : DapClientState) (variablesReference : Int) :
    DapClientState × DapRequest × Channel :=
  routedRequest st "variables"
    (some (.obj (.cons "variablesReference" (.num variablesReference) .nil)))

/-- `DapClient.evaluate`. -/
def evaluateOp (st : DapClientState) (expression : String) (frameId : Int) :
    DapClientState × DapRequest × Channel :=
  routedRequest st "evaluate" (some (.obj (.cons "expression" (.str expression)
    (.cons "frameId" (.num frameId) .nil))))

/-- `DapClient.continue`. -/
def continueOp (st : DapClientState) (threadId : Int) :
    DapClientState × DapRequest × Channel :=
  routedRequest st "continue" (some (.obj (.cons "threadId" (.num threadId) .nil)))

/-- `DapClient.next` (step over). -/
def nextOp (st : DapClientState) (threadId : Int) :
    DapClientState × DapRequest × Channel :=
  routedRequest st "next" (some (.obj (.cons "threadId" (.num threadId) .nil)))

/-- `DapClient.stepIn`. -/
def stepInOp (st : DapClientState) (threadId : Int) :
    DapClientState × DapRequest × Channel :=
  routedRequest st "stepIn" (some (.obj (.cons "threadId" (.num threadId) .nil)))

/-- `DapClient.stepOut`. -/
def stepOutOp (st : DapClientState) (threadId : Int) :
    DapClientState × DapRequest × Channel :=
  routedRequest st "stepOut" (some (.obj (.cons "threadId" (.num threadId) .nil)))

/-- `DapClient.pause`. -/
def pauseOp (st : DapClientState) (threadId : Int) :
    DapClientState × DapRequest × Channel :=
  routedRequest st "pause" (some (.obj (.cons "threadId" (.num threadId) .nil)))

/-- What child routing does to the state: the request goes out on the child
channel carrying the child sequence number, the child counter and
pending table advance, and the primary connection is untouched. -/
def childRouted (st : DapClientState) (child : ChildSessionState) (command : String)
    (out : DapClientState × DapRequest × Channel) : Prop :=
  out.2.2 = Channel.child child.targetId ∧
  out.2.1.seq = child.sequenceNumber ∧
  out.2.1.command = command ∧
  out.1.primary = st.primary ∧
  out.1.activeChildSession = some ⟨child.targetId, child.sequenceNumber + 1,
    (child.sequenceNumber, ⟨command⟩) :: child.pendingRequests⟩

theorem routedRequest_child (st : DapClientState) (child : ChildSessionState)
    (h : st.activeChildSession = some child) (command : String) (args : Option Json) :
    childRouted st child command (routedRequest st command args) := by
  unfold routedRequest sendRequestToChild
  rw [h]
  exact ⟨rfl, rfl, rfl, rfl, rfl⟩

/-! ## Session manager (`src/session/session-manager.ts`) -/

/-- Max traces to keep in memory per session (prevent OOM). -/
def MAX_TRACES_IN_MEMORY : Nat := 10000

/-- Max variables per trace. -/
def MAX_VARIABLES_PER_TRACE : Nat := 100

/-- The session state machine (`SessionState` in `types.ts`). -/
inductive SessionState where
  | created | initializing | ready | running | paused | terminated | error
  deriving DecidableEq

/-- A variable snapshot (name and rendered value). -/
structure Variable where
  name : String
  value : String
  deriving DecidableEq

/-- A stack frame as the session manager reads it. -/
structure StackFrame where
  id : Nat
  name : String
  file : String
  line : Nat
  deriving DecidableEq

/-- Captured state at a tracepoint hit (`TracePoint`). -/
structure TracePoint where
  hitNumber : Nat
  timestamp : Nat
  file : String
  line : Nat
  function : Option String
  -- the source field is named `variables`, which is a reserved command
  -- token in Lean; `vars` stands for it
  vars : List Variable
  deriving DecidableEq

/-- Cached context from the last stop. -/
structure StopContext where
  stackFrame : StackFrame
  -- the source field is named `variables`
  vars : List Variable
  deriving DecidableEq

/-- A stored breakpoint record.  The session manager writes the tracepoint
fields (`trace`, `dumpFile`, `maxDumps`, `dumpCount`) onto these records in
`setBreakpoint` and reads them in the stopped handler. -/
structure BreakpointInfo where
  id : Nat
  file : String
  line : Nat
  column : Option Nat := none
  verified : Bool
  condition : Option String := none
  hitCondition : Option String := none
  logMessage : Option String := none
  message : Option String := none
  trace : Option Bool := none
  dumpFile : Option String := none
  maxDumps : Option Nat := none
  dumpCount : Option Nat := none
  deriving DecidableEq

/-- The arguments of a `setBreakpoint` call (`SetBreakpointRequest`). -/
structure SetBreakpointRequest where
  file : String
  line : Nat
  condition : Option String := none
  hitCondition : Option String := none
  logMessage : Option String := none
  trace : Option Bool := none
  dumpFile : Option String := none
  maxDumps : Option Nat := none
  deriving DecidableEq

/-- The fields of a `DebugProtocol.Breakpoint` in a `setBreakpoints` reply
that `convertBreakpoint` reads. -/
structure DapBreakpoint where
  id : Option Nat := none
  sourcePath : Option String := none
  line : Option Nat := none
  column : Option Nat := none
  verified : Bool
  message : Option String := none
  deriving DecidableEq

/-- The per-session mutable state the claims are about (`SessionData`). -/
structure SessionData where
  state : SessionState
  breakpoints : List (String × List BreakpointInfo)
  currentThreadId : Nat
  currentFrameId : Nat
  lastStopContext : Option StopContext
  collectedTraces : List TracePoint
  dumpBreakpoints : List (String × String)
  stoppedReason : Option String
  stoppedThreadId : Option Nat
  deriving DecidableEq

/-- JS `Map.get`. -/
def mapGet {α : Type} (m : List (String × α)) (k : String) : Option α :=
  (m.find? (fun p => decide (p.1 = k))).map (·.2)

/-- JS `Map.set`: overwrite in place, or append a new entry. -/
def mapSet {α : Type} (m : List (String × α)) (k : String) (v : α) :
    List (String × α) :=
  if (m.find? (fun p => decide (p.1 = k))).isSome then
    m.map (fun p => if p.1 = k then (k, v) else p)
  else m ++ [(k, v)]

/-- JS `Map.delete`. -/
def mapDelete {α : Type} (m : List (String × α)) (k : String) : List (String × α) :=
  m.filter (fun p => decide (¬ p.1 = k))

/-- The tracepoint key `` `${file}:${line}` ``. -/
def bpKey (file : String) (line : Nat) : String :=
  file ++ ":" ++ String.mk (natToChars line)

/-- `convertBreakpoint` (`types.ts`): the record rebuilt from an adapter
reply carries only id, file, line, column, verified and message; it has no
condition, hitCondition, logMessage, trace, dumpFile, maxDumps or dumpCount
(those fields default to `none`). -/
def convertBreakpoint (bp : DapBreakpoint) (file : String) (requestedLine : Nat) :
    BreakpointInfo :=
  { id := bp.id.getD 0
    file := bp.sourcePath.getD file
    line := bp.line.getD requestedLine
    column := bp.column
    verified := bp.verified
    message := bp.message }

/-- Positional pairing of the adapter reply with the requested lines
(`breakpoints[index]?.line ?? 0`). -/
def convertReply : List DapBreakpoint → List Nat → String → List BreakpointInfo
  | [], _, _ => []
  | bp :: bps, [], file => convertBreakpoint bp file 0 :: convertReply bps [] file
  | bp :: bps, l :: ls, file => convertBreakpoint bp file l :: convertReply bps ls file

/-- `SessionManager.setBreakpointsInternal`: issue the per-file set to the
adapter (the reply is a parameter of the model) and replace the stored
per-file list with the converted reply. -/
def setBreakpointsInternal (s : SessionData) (file : String)
    (bps : List BreakpointInfo) (reply : List DapBreakpoint) :
    SessionData × List BreakpointInfo :=
  let result := convertReply reply (bps.map (·.line)) file
  ({ s with breakpoints := mapSet s.breakpoints file result }, result)

/-- The active states in which breakpoints are sent to the adapter. -/
def isActiveState (st : SessionState) : Bool :=
  decide (st = .ready) || decide (st = .running) || decide (st = .paused)

/-- Result shape of `setBreakpoint`. -/
structure SetBpResult where
  success : Bool
  breakpoint : Option BreakpointInfo
  message : Option String
  deriving DecidableEq

/-- The overwrite applied to an existing record at the requested line:
spread of the old record with the new request fields and a reset dump count
(lines 458-467 of `session-manager.ts`). -/
def overwriteBp (old : BreakpointInfo) (req : SetBreakpointRequest) : BreakpointInfo :=
  { old with
    condition := req.condition
    hitCondition := req.hitCondition
    logMessage := req.logMessage
    dumpFile := req.dumpFile
    trace := req.trace
    maxDumps := req.maxDumps
    dumpCount := some 0 }

/-- The fresh record pushed when no breakpoint exists at the line
(lines 469-482 of `session-manager.ts`). -/
def freshBp (req : SetBreakpointRequest) (normalizedFile : String) : BreakpointInfo :=
  { id := 0
    file := normalizedFile
    line := req.line
    verified := false
    condition := req.condition
    hitCondition := req.hitCondition
    logMessage := req.logMessage
    dumpFile := req.dumpFile
    trace := req.trace
    maxDumps := req.maxDumps
    dumpCount := some 0 }

/-- Update-or-append step of `setBreakpoint`: `findIndex` on the line, then
either update in place or push. -/
def updateBpList (existing : List BreakpointInfo) (req : SetBreakpointRequest)
    (normalizedFile : String) : List BreakpointInfo :=
  match List.findIdx? (fun bp => decide (bp.line = req.line)) existing with
  | some i =>
    match existing.get? i with
    | some old => existing.set i (overwriteBp old req)
    | none => existing
  | none => existing ++ [freshBp req normalizedFile]

/-- `SessionManager.setBreakpoint`.  `path.resolve` is modelled as the
identity (file paths are taken as already absolute).  The adapter reply for
the active-state path is a parameter. -/
def setBreakpoint (s : SessionData) (req : SetBreakpointRequest)
    (reply : List DapBreakpoint) : SessionData × SetBpResult :=
  let normalizedFile := req.file
  let existing := (mapGet s.breakpoints normalizedFile).getD []
  let updated := updateBpList existing req normalizedFile
  let s1 := { s with breakpoints := mapSet s.breakpoints normalizedFile updated }
  let key := bpKey normalizedFile req.line
  -- JS truthiness of `trace || dumpFile`: `trace` must be `true`, a
  -- `dumpFile` must be a non-empty string
  let isTracepointReq : Bool := decide (req.trace = some true) ||
    (match req.dumpFile with
     | some d => decide (¬ d = "")
     | none => false)
  let dumpBps2 := if isTracepointReq then
      mapSet s1.dumpBreakpoints key (req.dumpFile.getD "")
    else mapDelete s1.dumpBreakpoints key
  let s2 := { s1 with dumpBreakpoints := dumpBps2 }
  if isActiveState s2.state then
    let out := setBreakpointsInternal s2 normalizedFile updated reply
    let bp := out.2.find? (fun b => decide (b.line = req.line))
    (out.1,
      { success := (bp.map (·.verified)).getD false
        breakpoint := bp
        message := match bp with
          | some b => if b.verified then none else some ((b.message).getD "Breakpoint not verified")
          | none => some "Breakpoint not verified" })
  else
    (s2, { success := true
           breakpoint := updated.find? (fun b => decide (b.line = req.line))
           message := some "Breakpoint set (will be verified when debugging starts)" })

/-- `SessionManager.removeBreakpoint`. -/
def removeBreakpoint (s : SessionData) (file : String) (line : Nat)
    (reply : List DapBreakpoint) : SessionData × Bool × String :=
  let normalizedFile := file
  match mapGet s.breakpoints normalizedFile with
  | none => (s, false, "No breakpoints in this file")
  | some bps =>
    match List.findIdx? (fun bp => decide (bp.line = line)) bps with
    | none => (s, false, "Breakpoint not found at this line")
    | some i =>
      let bps2 := bps.eraseIdx i
      let s1 := { s with breakpoints := mapSet s.breakpoints normalizedFile bps2 }
      if isActiveState s1.state then
        ((setBreakpointsInternal s1 normalizedFile bps2 reply).1, true, "Breakpoint removed")
      else (s1, true, "Breakpoint removed")

/-- The bounded append to the per-session trace buffer (lines 243-246 of
`session-manager.ts`): drop the oldest entry when at the cap, then push. -/
def pushTrace (cap : Nat) (buf : List TracePoint) (t : TracePoint) : List TracePoint :=
  if buf.length ≥ cap then buf.drop 1 ++ [t] else buf ++ [t]

/-- The `TracePoint` the stopped handler constructs: the variable list is
truncated to `MAX_VARIABLES_PER_TRACE` entries. -/
def mkTracePoint (dumpCount timestamp : Nat) (file : String) (line : Nat)
    (funcName : String) (vs : List Variable) : TracePoint :=
  ⟨dumpCount, timestamp, file, line, some funcName,
    vs.take MAX_VARIABLES_PER_TRACE⟩

/-- Observable outcome of one run of the `stopped` handler. -/
structure StoppedOutcome where
  session : SessionData
  transitionedToPaused : Bool
  emittedStopped : Bool
  autoContinued : Bool
  dumpWrite : Option TracePoint
  deriving DecidableEq

/-- Model of the `stopped` handler in `SessionManager.setupEventHandlers`.
The client responses (`stackTrace` frames, the local-scope variables) and
`Date.now()` are inputs. -/
def handleStopped (s0 : SessionData) (threadId : Option Nat) (reason : String)
    (frames : List StackFrame) (localVariables : List Variable)
    (timestamp : Nat) : StoppedOutcome :=
  let tid := threadId.getD 1
  let s := { s0 with
    currentThreadId := tid
    stoppedReason := some reason
    stoppedThreadId := some tid }
  match frames with
  | [] =>
    { session := { s with state := .paused }, transitionedToPaused := true,
      emittedStopped := true, autoContinued := false, dumpWrite := none }
  | frame0 :: _ =>
    let currentFile := frame0.file
    let currentLine := frame0.line
    let s := { s with
      currentFrameId := frame0.id
      lastStopContext := some (StopContext.mk frame0 localVariables) }
    let key := bpKey currentFile currentLine
    match mapGet s.dumpBreakpoints key with
    | some dumpFile =>
      -- find the breakpoint, increment its dump count in place
      let found : SessionData × Option BreakpointInfo :=
        match mapGet s.breakpoints currentFile with
        | some bps =>
          match List.findIdx? (fun b => decide (b.line = currentLine)) bps with
          | some i =>
            match bps.get? i with
            | some bp =>
              let bp2 := { bp with dumpCount := some ((bp.dumpCount.getD 0) + 1) }
              ({ s with breakpoints := mapSet s.breakpoints currentFile (bps.set i bp2) },
                some bp2)
            | none => (s, none)
          | none => (s, none)
        | none => (s, none)
      let s := found.1
      let maxDumps := found.2.bind (·.maxDumps)
      let dumpCount := (found.2.bind (·.dumpCount)).getD 1
      -- shouldContinue = !maxDumps || dumpCount < maxDumps (0 is falsy in JS)
      let shouldContinue : Bool :=
        match maxDumps with
        | none => true
        | some m => decide (m = 0) || decide (dumpCount < m)
      let trace := mkTracePoint dumpCount timestamp currentFile currentLine
        frame0.name localVariables
      let newTraces := pushTrace MAX_TRACES_IN_MEMORY s.collectedTraces trace
      let s := { s with collectedTraces := newTraces }
      let dumpWrite := if decide (¬ dumpFile = "") then some trace else none
      if shouldContinue then
        { session := s, transitionedToPaused := false, emittedStopped := false,
          autoContinued := true, dumpWrite := dumpWrite }
      else
        { session := { s with state := .paused }, transitionedToPaused := true,
          emittedStopped := true, autoContinued := false, dumpWrite := dumpWrite }
    | none =>
      { session := { s with state := .paused }, transitionedToPaused := true,
        emittedStopped := true, autoContinued := false, dumpWrite := none }

/-- Iterate the stopped handler over `n` hits at a fixed source location. -/
def runHits : Nat → SessionData → StackFrame → List Variable →
    SessionData × List StoppedOutcome
  | 0, s, _, _ => (s, [])
  | n+1, s, fr, vs =>
    let o := handleStopped s (some 1) "breakpoint" [fr] vs 0
    let rest := runHits n o.session fr vs
    (rest.1, o :: rest.2)

/-- Outcome of an awaited promise. -/
inductive PromiseOutcome where
  | resolvedOut | rejectedOut
  deriving DecidableEq

/-- Model of `SessionManager.waitForPause`: reject only when the session is
unknown; resolve immediately when already paused; resolve when a `stopped`
event for this session arrives before the timer; resolve (not reject) when
the timer fires first.  The boolean input decides the race between the
`stopped` listener and the timer. -/
def waitForPause (sessionFound : Bool) (state : SessionState)
    (stoppedArrives : Bool) : PromiseOutcome :=
  if ¬ sessionFound then .rejectedOut
  else if state = .paused then .resolvedOut
  else if stoppedArrives then .resolvedOut
  else .resolvedOut

/-- Model of `DapClient.waitForLaunch`: return at once when the launch
response already arrived (`pendingLaunchSeq === null`); otherwise resolve
when the response arrives, and also resolve — never reject — when the
timer fires with the response still pending. -/
def waitForLaunch (pendingLaunchSeq : Option Nat)
    (responseArrivesBeforeTimeout : Bool) : PromiseOutcome :=
  match pendingLaunchSeq with
  | none => .resolvedOut
  | some _ => if responseArrivesBeforeTimeout then .resolvedOut else .resolvedOut

/-- Full call to `SessionManager.waitForPause`: reject only for an unknown
session id; every other path resolves and the session table is returned
untouched (the function only reads the session). -/
def waitForPauseRun (sessions : List (String × SessionData)) (sessionId : String)
    (stoppedArrives : Bool) : PromiseOutcome × List (String × SessionData) :=
  match mapGet sessions sessionId with
  | none => (.rejectedOut, sessions)
  | some sd =>
    if sd.state = .paused then (.resolvedOut, sessions)
    else if stoppedArrives then (.resolvedOut, sessions)
    else (.resolvedOut, sessions)

/-! ### Association-map lemmas -/

theorem find_overwrite_self {α : Type} (m : List (String × α)) (k : String) (v : α) :
    List.find? (fun p => decide (p.1 = k)) (m.map (fun p => if p.1 = k then (k, v) else p))
      = if (List.find? (fun p => decide (p.1 = k)) m).isSome then some (k, v) else none := by
  induction m with
  | nil => simp
  | cons e rest ih =>
    by_cases he : e.1 = k
    · rw [List.map_cons, if_pos he,
        List.find?_cons_of_pos _ (by simp),
        List.find?_cons_of_pos _ (by simp [he])]
      simp
    · rw [List.map_cons, if_neg he,
        List.find?_cons_of_neg _ (by simp [he]),
        List.find?_cons_of_neg _ (by simp [he]), ih]

theorem find_overwrite_other {α : Type} (m : List (String × α)) (k k2 : String) (v : α)
    (hne : ¬ k2 = k) :
    List.find? (fun p => decide (p.1 = k2)) (m.map (fun p => if p.1 = k then (k, v) else p))
      = List.find? (fun p => decide (p.1 = k2)) m := by
  induction m with
  | nil => rfl
  | cons e rest ih =>
    by_cases he : e.1 = k
    · have h1 : ¬ ((k, v).1 = k2) := fun h => hne h.symm
      have h2 : ¬ (e.1 = k2) := by
        rw [he]
        exact fun h => hne h.symm
      rw [List.map_cons, if_pos he,
        List.find?_cons_of_neg _ (by simp [h1]),
        List.find?_cons_of_neg _ (by simp [h2]), ih]
    · by_cases he2 : e.1 = k2
      · rw [List.map_cons, if_neg he,
          List.find?_cons_of_pos _ (by simp [he2]),
          List.find?_cons_of_pos _ (by simp [he2])]
      · rw [List.map_cons, if_neg he,
          List.find?_cons_of_neg _ (by simp [he2]),
          List.find?_cons_of_neg _ (by simp [he2]), ih]

theorem mapGet_mapSet_self {α : Type} (m : List (String × α)) (k : String) (v : α) :
    mapGet (mapSet m k v) k = some v := by
  unfold mapGet mapSet
  by_cases hfound : (m.find? (fun p => decide (p.1 = k))).isSome
  · rw [if_pos hfound, find_overwrite_self, if_pos hfound]
    rfl
  · rw [if_neg hfound]
    have hnone : m.find? (fun p => decide (p.1 = k)) = none := by
      cases h : m.find? (fun p => decide (p.1 = k))
      · rfl
      · rw [h] at hfound; simp at hfound
    rw [List.find?_append, hnone]
    simp

theorem mapGet_mapSet_other {α : Type} (m : List (String × α)) (k k2 : String) (v : α)
    (hne : ¬ k2 = k) : mapGet (mapSet m k v) k2 = mapGet m k2 := by
  unfold mapGet mapSet
  by_cases hfound : (m.find? (fun p => decide (p.1 = k))).isSome
  · rw [if_pos hfound, find_overwrite_other m k k2 v hne]
  · rw [if_neg hfound, List.find?_append]
    cases h : m.find? (fun p => decide (p.1 = k2)) with
    | some p => simp
    | none =>
      have hkk : ¬ ((k, v).1 = k2) := fun he => hne he.symm
      simp [List.find?_cons, hkk]

/-! ### The update-or-append recurrence and its invariants -/

theorem updateBpList_nil (req : SetBreakpointRequest) (file : String) :
    updateBpList [] req file = [freshBp req file] := rfl

theorem updateBpList_cons (bp : BreakpointInfo) (ex : List BreakpointInfo)
    (req : SetBreakpointRequest) (file : String) :
    updateBpList (bp :: ex) req file =
      if bp.line = req.line then overwriteBp bp req :: ex
      else bp :: updateBpList ex req file := by
  by_cases h : bp.line = req.line
  · rw [if_pos h]
    unfold updateBpList
    simp [List.findIdx?_cons, h]
  · rw [if_neg h]
    unfold updateBpList
    rw [List.findIdx?_cons]
    have hp : (decide (bp.line = req.line)) = false := by simp [h]
    rw [hp]
    simp only [Bool.false_eq_true, if_false, List.findIdx?_succ]
    cases hi : List.findIdx? (fun b => decide (b.line = req.line)) ex with
    | none => simp
    | some i =>
      simp only [Option.map_some]
      cases hg : ex[i]? with
      | none => simp [hg]
      | some old => simp [hg]

theorem overwriteBp_line (old : BreakpointInfo) (req : SetBreakpointRequest) :
    (overwriteBp old req).line = old.line := rfl

theorem updateBpList_line_mem (ex : List BreakpointInfo) (req : SetBreakpointRequest)
    (file : String) :
    ∀ x ∈ (updateBpList ex req file).map (·.line),
      x ∈ ex.map (·.line) ∨ x = req.line := by
  induction ex with
  | nil =>
    intro x hx
    rw [updateBpList_nil] at hx
    simp only [List.map_cons, List.map_nil, List.mem_singleton] at hx
    exact Or.inr hx
  | cons bp tl ih =>
    intro x hx
    rw [updateBpList_cons] at hx
    by_cases h : bp.line = req.line
    · rw [if_pos h] at hx
      simp only [List.map_cons, List.mem_cons, overwriteBp_line] at hx
      rcases hx with hx | hx
      · exact Or.inr (hx.trans h)
      · exact Or.inl (by simp [List.mem_cons, hx])
    · rw [if_neg h] at hx
      simp only [List.map_cons, List.mem_cons] at hx
      rcases hx with hx | hx
      · exact Or.inl (by simp [hx])
      · rcases ih x hx with hm | he
        · exact Or.inl (by simp [List.mem_cons, hm])
        · exact Or.inr he

theorem updateBpList_nodup (ex : List BreakpointInfo) (req : SetBreakpointRequest)
    (file : String) (hnd : (ex.map (·.line)).Nodup) :
    ((updateBpList ex req file).map (·.line)).Nodup := by
  induction ex with
  | nil =>
    rw [updateBpList_nil]
    simp
  | cons bp tl ih =>
    rw [updateBpList_cons]
    simp only [List.map_cons, List.nodup_cons] at hnd
    by_cases h : bp.line = req.line
    · rw [if_pos h]
      simp only [List.map_cons, List.nodup_cons, overwriteBp_line]
      exact hnd
    · rw [if_neg h]
      simp only [List.map_cons, List.nodup_cons]
      refine ⟨?_, ih hnd.2⟩
      intro hmem
      rcases updateBpList_line_mem tl req file bp.line hmem with hm | he
      · exact hnd.1 hm
      · exact h he

theorem updateBpList_filter (ex : List BreakpointInfo) (req : SetBreakpointRequest)
    (file : String) (hnd : (ex.map (·.line)).Nodup) :
    ∃ bp, (updateBpList ex req file).filter (fun b => decide (b.line = req.line)) = [bp] ∧
      bp.condition = req.condition ∧ bp.line = req.line := by
  induction ex with
  | nil =>
    refine ⟨freshBp req file, ?_, rfl, rfl⟩
    rw [updateBpList_nil]
    simp [freshBp]
  | cons bp tl ih =>
    rw [updateBpList_cons]
    simp only [List.map_cons, List.nodup_cons] at hnd
    by_cases h : bp.line = req.line
    · refine ⟨overwriteBp bp req, ?_, rfl, by rw [overwriteBp_line]; exact h⟩
      rw [if_pos h, List.filter_cons]
      have hhead : (decide ((overwriteBp bp req).line = req.line)) = true := by
        simp [overwriteBp_line, h]
      rw [hhead]
      simp only [ite_true]
      have htl : tl.filter (fun b => decide (b.line = req.line)) = [] := by
        rw [List.filter_eq_nil_iff]
        intro b hb
        simp only [decide_eq_true_eq]
        intro hline
        exact hnd.1 (by rw [h, ← hline]; exact List.mem_map.mpr ⟨b, hb, rfl⟩)
      rw [htl]
    · obtain ⟨bp2, hf, hc, hl⟩ := ih hnd.2
      refine ⟨bp2, ?_, hc, hl⟩
      rw [if_neg h, List.filter_cons]
      have hhead : (decide (bp.line = req.line)) = false := by simp [h]
      rw [hhead]
      simp only [Bool.false_eq_true, if_false]
      exact hf

/-- Invariant: every stored per-file list has pairwise distinct lines. -/
def BpLineInv (s : SessionData) : Prop :=
  ∀ f bps, mapGet s.breakpoints f = some bps → (bps.map (·.line)).Nodup

/-- At most one stored breakpoint per (file, line). -/
def atMostOnePerLine (s : SessionData) : Prop :=
  ∀ f l, (((mapGet s.breakpoints f).getD []).filter
    (fun b => decide (b.line = l))).length ≤ 1

/-- A sequence of `setBreakpoint` calls (outside the active states the
adapter is never consulted, so the reply is empty). -/
def applyReqs : SessionData → List SetBreakpointRequest → SessionData
  | s, [] => s
  | s, r :: rs => applyReqs (setBreakpoint s r []).1 rs

theorem length_filter_le_one_of_nodup (l : List BreakpointInfo) (x : Nat)
    (h : (l.map (·.line)).Nodup) :
    (l.filter (fun b => decide (b.line = x))).length ≤ 1 := by
  induction l with
  | nil => simp
  | cons a tl ih =>
    simp only [List.map_cons, List.nodup_cons] at h
    rw [List.filter_cons]
    by_cases ha : a.line = x
    · have hpa : (decide (a.line = x)) = true := by simp [ha]
      rw [hpa]
      simp only [if_true]
      have htl : tl.filter (fun b => decide (b.line = x)) = [] := by
        rw [List.filter_eq_nil_iff]
        intro b hb
        simp only [decide_eq_true_eq]
        intro hbx
        exact h.1 (by rw [ha, ← hbx]; exact List.mem_map.mpr ⟨b, hb, rfl⟩)
      rw [htl]
      simp
    · have hpa : (decide (a.line = x)) = false := by simp [ha]
      rw [hpa]
      simp only [Bool.false_eq_true, if_false]
      exact ih h.2

theorem setBreakpoint_inactive (s : SessionData) (req : SetBreakpointRequest)
    (reply : List DapBreakpoint) (h : isActiveState s.state = false) :
    (setBreakpoint s req reply).1.state = s.state ∧
    (setBreakpoint s req reply).1.breakpoints =
      mapSet s.breakpoints req.file
        (updateBpList ((mapGet s.breakpoints req.file).getD []) req req.file) := by
  unfold setBreakpoint
  simp only [h, Bool.false_eq_true, if_false]
  constructor <;> trivial

theorem BpLineInv_setBreakpoint (s : SessionData) (req : SetBreakpointRequest)
    (reply : List DapBreakpoint) (h : isActiveState s.state = false)
    (hinv : BpLineInv s) : BpLineInv (setBreakpoint s req reply).1 := by
  obtain ⟨-, hb⟩ := setBreakpoint_inactive s req reply h
  intro f bps hget
  rw [hb] at hget
  by_cases hf : f = req.file
  · subst hf
    rw [mapGet_mapSet_self] at hget
    have hbps := Option.some.inj hget
    subst hbps
    apply updateBpList_nodup
    cases hg : mapGet s.breakpoints req.file with
    | none => simp
    | some bps0 => simpa using hinv req.file bps0 hg
  · rw [mapGet_mapSet_other _ _ _ _ hf] at hget
    exact hinv f bps hget

theorem applyReqs_inactive (s : SessionData) (h : isActiveState s.state = false)
    (hinv : BpLineInv s) (reqs : List SetBreakpointRequest) :
    isActiveState (applyReqs s reqs).state = false ∧ BpLineInv (applyReqs s reqs) := by
  induction reqs generalizing s with
  | nil => exact ⟨h, hinv⟩
  | cons r rs ih =>
    have hstep := setBreakpoint_inactive s r [] h
    have h2 : isActiveState (setBreakpoint s r []).1.state = false := by
      rw [hstep.1]; exact h
    exact ih (setBreakpoint s r []).1 h2 (BpLineInv_setBreakpoint s r [] h hinv)

theorem atMostOnePerLine_of_inv (s : SessionData) (hinv : BpLineInv s) :
    atMostOnePerLine s := by
  intro f l
  cases hg : mapGet s.breakpoints f with
  | none => simp
  | some bps =>
    simp only [Option.getD_some]
    exact length_filter_le_one_of_nodup bps l (hinv f bps hg)

/-! ### dumpBreakpoints framing lemmas -/

theorem mapGet_mapDelete_self {α : Type} (m : List (String × α)) (k : String) :
    mapGet (mapDelete m k) k = none := by
  unfold mapGet mapDelete
  induction m with
  | nil => rfl
  | cons e rest ih =>
    rw [List.filter_cons]
    by_cases he : e.1 = k
    · have hp : (decide (¬ e.1 = k)) = false := by simp [he]
      rw [hp]
      simp only [Bool.false_eq_true, if_false]
      exact ih
    · have hp : (decide (¬ e.1 = k)) = true := by simp [he]
      rw [hp]
      simp only [if_true]
      rw [List.find?_cons_of_neg _ (by simp [he])]
      exact ih

theorem removeBreakpoint_dumpBreakpoints (s : SessionData) (file : String)
    (line : Nat) (reply : List DapBreakpoint) :
    (removeBreakpoint s file line reply).1.dumpBreakpoints = s.dumpBreakpoints := by
  cases h1 : mapGet s.breakpoints file with
  | none => simp [removeBreakpoint, h1]
  | some bps =>
    cases h2 : List.findIdx? (fun bp => decide (bp.line = line)) bps with
    | none => simp [removeBreakpoint, h1, h2]
    | some i =>
      by_cases h3 : isActiveState s.state = true
      · simp [removeBreakpoint, h1, h2, h3, setBreakpointsInternal]
      · simp [removeBreakpoint, h1, h2, h3]

theorem setBreakpoint_dumpBreakpoints (s : SessionData) (req : SetBreakpointRequest)
    (reply : List DapBreakpoint)
    (htr : ¬ req.trace = some true)
    (hdf : req.dumpFile = none ∨ req.dumpFile = some "") :
    (setBreakpoint s req reply).1.dumpBreakpoints =
      mapDelete s.dumpBreakpoints (bpKey req.file req.line) := by
  have hflag : (decide (req.trace = some true) ||
      (match req.dumpFile with
       | some d => decide (¬ d = "")
       | none => false) : Bool) = false := by
    rcases hdf with hdf | hdf <;> simp [htr, hdf]
  unfold setBreakpoint
  simp only [hflag, Bool.false_eq_true, if_false]
  by_cases h3 : isActiveState s.state = true
  · simp only [h3, if_true]
    rfl
  · simp only [h3, Bool.false_eq_true, if_false]

/-! ### The bounded trace ring -/

theorem pushTrace_foldl (K : Nat) (hK : 0 < K) :
    ∀ (ts buf : List TracePoint), buf.length ≤ K →
      List.foldl (pushTrace K) buf ts = (buf ++ ts).drop (buf.length + ts.length - K) := by
  intro ts
  induction ts with
  | nil =>
    intro buf hle
    simp [Nat.sub_eq_zero_of_le hle]
  | cons t ts ih =>
    intro buf hle
    rw [List.foldl_cons]
    by_cases hfull : buf.length ≥ K
    · have hbK : buf.length = K := Nat.le_antisymm hle hfull
      have hstep : pushTrace K buf t = buf.drop 1 ++ [t] := by
        unfold pushTrace
        rw [if_pos hfull]
      rw [hstep]
      have hlen2 : (buf.drop 1 ++ [t]).length ≤ K := by
        simp only [List.length_append, List.length_drop, List.length_cons,
          List.length_nil]
        omega
      rw [ih (buf.drop 1 ++ [t]) hlen2]
      have hL : (buf.drop 1 ++ [t]).length = K := by
        simp only [List.length_append, List.length_drop, List.length_cons,
          List.length_nil]
        omega
      rw [hL]
      have hsplit : buf.drop 1 ++ [t] ++ ts = (buf ++ t :: ts).drop 1 := by
        rw [List.drop_append_of_le_length (by omega)]
        simp
      rw [hsplit, List.drop_drop]
      congr 1
      simp only [List.length_append, List.length_cons, hbK]
      omega
    · have hstep : pushTrace K buf t = buf ++ [t] := by
        unfold pushTrace
        rw [if_neg hfull]
      rw [hstep]
      have hlen2 : (buf ++ [t]).length ≤ K := by
        simp only [List.length_append, List.length_cons, List.length_nil]
        omega
      rw [ih (buf ++ [t]) hlen2]
      rw [List.append_assoc]
      simp only [List.singleton_append, List.length_append, List.length_cons,
        List.length_nil]
      congr 1
      omega

/-! ## Concrete scenarios -/

/-- A fresh session record in the given state, with empty tables. -/
def emptySession (st : SessionState) : SessionData :=
  { state := st
    breakpoints := []
    currentThreadId := 0
    currentFrameId := 0
    lastStopContext := none
    collectedTraces := []
    dumpBreakpoints := []
    stoppedReason := none
    stoppedThreadId := none }

/-- An adapter reply verifying one breakpoint at line 5 of `/t.py`. -/
def echoReply5 : List DapBreakpoint :=
  [{ id := some 1, sourcePath := some "/t.py", line := some 5, verified := true }]

/-- A tracepoint request at line 5 of `/t.py` with `maxDumps = 3`. -/
def traceReq : SetBreakpointRequest :=
  { file := "/t.py", line := 5, trace := some true, maxDumps := some 3 }

/-- The running session after registering the tracepoint through
`setBreakpoint` (the active-state path re-issues the breakpoints to the
adapter and stores the converted reply). -/
def tracedSession : SessionData :=
  (setBreakpoint (emptySession .running) traceReq echoReply5).1

/-- The stack frame reported at each hit of line 5. -/
def frame5 : StackFrame := ⟨1, "f", "/t.py", 5⟩

/-- A stored record as it would look had the tracepoint fields survived:
`trace = true`, `maxDumps = 3`, `dumpCount = 0`. -/
def keptBp : BreakpointInfo :=
  { id := 1, file := "/t.py", line := 5, verified := true,
    trace := some true, maxDumps := some 3, dumpCount := some 0 }

/-- A running session whose stored breakpoint kept its tracepoint fields
and whose dump registration is present. -/
def keptSession : SessionData :=
  { emptySession .running with
    breakpoints := [("/t.py", [keptBp])]
    dumpBreakpoints := [(bpKey "/t.py" 5, "")] }

/-- A stored breakpoint carrying every optional field. -/
def storedTracepoint : BreakpointInfo :=
  { id := 1, file := "/t.py", line := 5, verified := true,
    condition := some "x>0", hitCondition := some "3", logMessage := some "hit",
    trace := some true, dumpFile := some "/tmp/d.json", maxDumps := some 3,
    dumpCount := some 2 }

/-- An adapter reply assigning id 7 and verifying the breakpoint. -/
def replyId7 : List DapBreakpoint :=
  [{ id := some 7, sourcePath := some "/t.py", line := some 5, verified := true }]

/-- A child session with sequence counter 5 and an empty pending table. -/
def child0 : ChildSessionState := ⟨"t1", 5, []⟩

/-- A client whose active child session is `child0`. -/
def clientSt0 : DapClientState := ⟨⟨1, []⟩, some child0⟩

/-- A malformed header block: no `Content-Length` at all. -/
def garbageHdr : List Char := "X-Garbage: oops".toList

/-- A small DAP message. -/
def msg0 : Json :=
  .obj (.cons "seq" (.num 1) (.cons "type" (.str "request") .nil))

/-- A connection with two outstanding requests, seq 1 and seq 2. -/
def connSt0 : ConnState := ⟨3, [(1, ⟨"threads"⟩), (2, ⟨"scopes"⟩)]⟩

/-- The response to request 2, arriving first. -/
def respA : DapResponse := ⟨2, true, none⟩

/-- The response to request 1, arriving second. -/
def respB : DapResponse := ⟨1, true, none⟩

/-- A response whose `request_seq` matches no pending request. -/
def staleResp : DapResponse := ⟨99, true, none⟩

/-- Concrete trace points for the ring-buffer witness. -/
def tpA : TracePoint := ⟨1, 0, "/t.py", 5, some "f", []⟩

def tpB : TracePoint := ⟨2, 0, "/t.py", 5, some "f", []⟩

def tpC : TracePoint := ⟨3, 0, "/t.py", 5, some "f", []⟩

/-- A breakpoint stored as a tracepoint (used by the C10 fixture). -/
def dumpBp : BreakpointInfo :=
  { id := 1, file := "/t.py", line := 5, verified := true,
    trace := some true, dumpCount := some 0 }

/-- A running session with a tracepoint at `/t.py:5` and its dump
registration. -/
def dumpSession : SessionData :=
  { emptySession .running with
    breakpoints := [("/t.py", [dumpBp])]
    dumpBreakpoints := [(bpKey "/t.py" 5, "/tmp/d.json")] }

/-! ## The claims -/

/-- Claim C1, counterexample.  The claim says a tracepoint with
`maxDumps = 3` at a line hit 10 times yields exactly 3 traces and a
transition to paused on the 4th hit.  In the code, registering the
tracepoint in an active session stores the adapter reply converted by
`convertBreakpoint`, which drops `maxDumps` (and `trace`); the stopped
handler then finds no `maxDumps` and auto-continues every hit, so 10 hits
append 10 traces and no hit pauses. -/
theorem claim_C1_counterexample :
    ¬ ((runHits 10 tracedSession frame5 []).1.collectedTraces.length = 3 ∧
      ((runHits 10 tracedSession frame5 []).2.map
        (fun o => o.transitionedToPaused)).take 4 = [false, false, false, true]) := by
  decide

/-- Claim C1, amended.  What the code does: (a) a record rebuilt from the
adapter reply never carries `maxDumps`; (b) hence after an active-state
tracepoint registration, 10 hits append 10 traces with hit numbers 1..10,
every hit auto-continues without emitting `stopped`, and the session stays
`running`; (c) had the stored record kept `maxDumps = 3`, the handler would
pause on the 3rd hit (the `dumpCount < maxDumps` test fails at the
`maxDumps`-th hit, not after it), with 3 traces collected. -/
theorem claim_C1_tracepoint_amended :
    (∀ (bp : DapBreakpoint) (file : String) (l : Nat),
      (convertBreakpoint bp file l).maxDumps = none ∧
      (convertBreakpoint bp file l).trace = none) ∧
    (runHits 10 tracedSession frame5 []).1.collectedTraces.map
      (fun t => t.hitNumber) = [1, 2, 3, 4, 5, 6, 7, 8, 9, 10] ∧
    ((runHits 10 tracedSession frame5 []).2.all
      (fun o => o.autoContinued && !o.transitionedToPaused && !o.emittedStopped))
      = true ∧
    (runHits 10 tracedSession frame5 []).1.state = SessionState.running ∧
    (runHits 3 keptSession frame5 []).2.map (fun o => o.transitionedToPaused)
      = [false, false, true] ∧
    (runHits 3 keptSession frame5 []).1.collectedTraces.map (fun t => t.hitNumber)
      = [1, 2, 3] :=
  ⟨fun _ _ _ => ⟨rfl, rfl⟩, by decide, by decide, by decide, by decide, by decide⟩

/-- Claim C2.  The claim says the adapter reply changes only `id` and
`verified` of each stored record.  In the code `setBreakpointsInternal`
replaces the stored per-file list with records rebuilt by
`convertBreakpoint`, which carries only id, file, line, column, verified
and message: `condition`, `hitCondition`, `logMessage`, `trace`,
`dumpFile`, `maxDumps` and `dumpCount` are all reset to `none`. -/
theorem claim_C2_reply_resets_fields :
    ((setBreakpointsInternal (emptySession .running) "/t.py"
        [storedTracepoint] replyId7).2.map
      (fun b => (b.id, b.verified, b.condition, b.hitCondition, b.logMessage,
        b.trace, b.dumpFile, b.maxDumps, b.dumpCount)))
      = [(7, true, none, none, none, none, none, none, none)] ∧
    mapGet (setBreakpointsInternal (emptySession .running) "/t.py"
        [storedTracepoint] replyId7).1.breakpoints "/t.py"
      = some (setBreakpointsInternal (emptySession .running) "/t.py"
        [storedTracepoint] replyId7).2 := by
  exact ⟨rfl, rfl⟩

/-- Claim C3.  With a non-null active child session, each of the ten
thread/frame-scoped operations sends its request on the child channel with
the child sequence counter, records it in the child pending table, and
leaves the primary connection untouched. -/
theorem claim_C3_child_routing (st : DapClientState) (child : ChildSessionState)
    (h : st.activeChildSession = some child)
    (threadId frameId varRef : Int) (expr : String) :
    childRouted st child "threads" (threadsOp st) ∧
    childRouted st child "stackTrace" (stackTraceOp st threadId) ∧
    childRouted st child "scopes" (scopesOp st frameId) ∧
    childRouted st child "variables" (variablesOp st varRef) ∧
    childRouted st child "evaluate" (evaluateOp st expr frameId) ∧
    childRouted st child "continue" (continueOp st threadId) ∧
    childRouted st child "next" (nextOp st threadId) ∧
    childRouted st child "stepIn" (stepInOp st threadId) ∧
    childRouted st child "stepOut" (stepOutOp st threadId) ∧
    childRouted st child "pause" (pauseOp st threadId) :=
  ⟨routedRequest_child st child h _ _, routedRequest_child st child h _ _,
   routedRequest_child st child h _ _, routedRequest_child st child h _ _,
   routedRequest_child st child h _ _, routedRequest_child st child h _ _,
   routedRequest_child st child h _ _, routedRequest_child st child h _ _,
   routedRequest_child st child h _ _, routedRequest_child st child h _ _⟩

/-- Claim C3, witness at a concrete client state. -/
theorem claim_C3_witness :
    childRouted clientSt0 child0 "threads" (threadsOp clientSt0) ∧
    childRouted clientSt0 child0 "pause" (pauseOp clientSt0 1) := by
  have h := claim_C3_child_routing clientSt0 child0 rfl 1 2 3 "x"
  exact ⟨h.1, h.2.2.2.2.2.2.2.2.2⟩

/-- Claim C4.  Feeding `encodeMessage m` to `tryParse` yields `m` back with
an empty remainder, and the `Content-Length` header parses to the UTF-8
byte length of the JSON body (`strBytes` is the UTF-8 encoding, so this
holds for non-ASCII content as well). -/
theorem claim_C4_codec_roundtrip (m : Json) :
    tryParse (strBytes (encodeMessage m))
      = (.msg m ((strBytes (encodeMessage m)).length), []) ∧
    contentLengthOf (strBytes (encodeMessage m))
      = some (((strBytes (jsonStringify m)).length : Int)) :=
  ⟨tryParse_encodeMessage m, contentLengthOf_encodeMessage m⟩

/-- Claim C5, counterexample.  The claim says a single `parseAll` call on
an invalid header block followed by a well-formed frame returns the valid
message.  In the code `tryParse` returns `null` right after discarding the
invalid block, which ends the `parseAll` loop: the call returns no
messages (the valid frame is only parsed on the next call). -/
theorem claim_C5_counterexample :
    ¬ ((parseAll (charsBytes garbageHdr ++ 13 :: 10 :: 13 :: 10 ::
        strBytes (encodeMessage msg0))).1 = [msg0]) := by
  rw [parseAll_invalidHeader garbageHdr msg0 (by decide) (by decide) (Or.inl rfl)]
  simp

/-- Claim C5, amended.  The invalid header block is discarded and the
buffer resynchronizes at the next header, but the valid message comes out
of the following `parseAll` call, not the same one: the first call returns
no messages and leaves exactly the encoded frame in the buffer, and a call
on that remainder returns the message. -/
theorem claim_C5_resync_amended (hdr : List Char) (m : Json)
    (hascii : ∀ c ∈ hdr, c.toNat < 128)
    (hnoCR : ∀ c ∈ hdr, ¬ c = '\x0d')
    (hbad : headersGet (parseHeaderLines (splitCRLF hdr)) "content-length" = none ∨
      ∃ v, headersGet (parseHeaderLines (splitCRLF hdr)) "content-length" = some v ∧
        jsParseInt v = none) :
    parseAll (charsBytes hdr ++ 13 :: 10 :: 13 :: 10 :: strBytes (encodeMessage m))
      = ([], strBytes (encodeMessage m), false) ∧
    parseAll (strBytes (encodeMessage m)) = ([m], [], false) :=
  ⟨parseAll_invalidHeader hdr m hascii hnoCR hbad, parseAll_encodeMessage m⟩

/-- Claim C5, witness: the garbage header block before an encoded `msg0`. -/
theorem claim_C5_witness :
    parseAll (charsBytes garbageHdr ++ 13 :: 10 :: 13 :: 10 ::
        strBytes (encodeMessage msg0))
      = ([], strBytes (encodeMessage msg0), false) ∧
    parseAll (strBytes (encodeMessage msg0)) = ([msg0], [], false) := by
  have h := claim_C5_resync_amended garbageHdr msg0 (by decide) (by decide) (Or.inl rfl)
  exact h

/-- Claim C6.  Delivering any list of successful responses whose sequence
numbers are pending and pairwise distinct settles each request with the
response carrying its own `request_seq`, in arrival order — the
correlation is by `request_seq`, independent of the order the requests
were issued; and a response matching no pending request changes nothing. -/
theorem claim_C6_correlation (rs : List DapResponse) (st : ConnState)
    (hsucc : ∀ r ∈ rs, r.success = true)
    (hmem : ∀ r ∈ rs, r.request_seq ∈ st.pendingRequests.map Prod.fst)
    (hnodup : (rs.map DapResponse.request_seq).Nodup) :
    (processResponses st rs).2
      = rs.map (fun r => Settled.resolved r.request_seq r) ∧
    ∀ r2 : DapResponse, pendingLookup st.pendingRequests r2.request_seq = none →
      handleResponse st r2 = (st, none) :=
  ⟨processResponses_correlate rs st hsucc hmem hnodup,
   fun r2 h2 => handleResponse_stale st r2 h2⟩

/-- Claim C6, witness: two pending requests settled by out-of-order
responses, and a stale response that is ignored. -/
theorem claim_C6_witness :
    (processResponses connSt0 [respA, respB]).2
      = [Settled.resolved 2 respA, Settled.resolved 1 respB] ∧
    handleResponse connSt0 staleResp = (connSt0, none) := by
  have h := claim_C6_correlation [respA, respB] connSt0 (by decide) (by decide)
    (by decide)
  exact ⟨h.1, h.2 staleResp (by decide)⟩

/-- Claim C7, counterexample.  The claim says the condition stored after a
second `setBreakpoint` at the same line is the one from the most recent
call.  In an active session the second call stores the adapter reply
converted by `convertBreakpoint`, which has no `condition`: after
`setBreakpoint(line 5)` then `setBreakpoint(line 5, condition = x>0)` the
single stored record has condition `none`, not `x>0`. -/
theorem claim_C7_counterexample :
    ((mapGet (setBreakpoint (setBreakpoint (emptySession .running)
        { file := "/t.py", line := 5 } echoReply5).1
        { file := "/t.py", line := 5, condition := some "x>0" } echoReply5).1.breakpoints
      "/t.py").getD []).map (fun b => b.condition) = [none] := by
  decide

/-- Claim C7, amended.  Outside the active states the invariant holds as
claimed: starting from a session whose per-file lists have pairwise
distinct lines, any sequence of `setBreakpoint` calls leaves at most one
breakpoint per (file, line), and one call leaves exactly one record at its
(file, line) whose condition is the one from that call. -/
theorem claim_C7_amended (s : SessionData)
    (hact : isActiveState s.state = false) (hinv : BpLineInv s) :
    (∀ reqs : List SetBreakpointRequest, atMostOnePerLine (applyReqs s reqs)) ∧
    (∀ (req : SetBreakpointRequest) (reply : List DapBreakpoint), ∃ bp,
      ((mapGet (setBreakpoint s req reply).1.breakpoints req.file).getD []).filter
        (fun b => decide (b.line = req.line)) = [bp] ∧
      bp.condition = req.condition ∧ bp.line = req.line) := by
  constructor
  · intro reqs
    exact atMostOnePerLine_of_inv _ ((applyReqs_inactive s hact hinv reqs).2)
  · intro req reply
    obtain ⟨-, hb⟩ := setBreakpoint_inactive s req reply hact
    rw [hb, mapGet_mapSet_self]
    simp only [Option.getD_some]
    apply updateBpList_filter
    cases hg : mapGet s.breakpoints req.file with
    | none => simp
    | some bps0 => simpa using hinv req.file bps0 hg

/-- Claim C7, witness: two calls at line 5 of a created session. -/
theorem claim_C7_witness :
    atMostOnePerLine (applyReqs (emptySession .created)
      [{ file := "/t.py", line := 5 },
       { file := "/t.py", line := 5, condition := some "x>0" }]) ∧
    ∃ bp, ((mapGet (setBreakpoint (emptySession .created)
        { file := "/t.py", line := 5, condition := some "x>0" } []).1.breakpoints
        "/t.py").getD []).filter (fun b => decide (b.line = 5)) = [bp] ∧
      bp.condition = some "x>0" ∧ bp.line = 5 := by
  have hinv : BpLineInv (emptySession .created) := by
    intro f bps h
    exact Option.noConfusion h
  have h := claim_C7_amended (emptySession .created) rfl hinv
  exact ⟨h.1 _, h.2 { file := "/t.py", line := 5, condition := some "x>0" } []⟩

/-- Claim C8.  When the session exists, `waitForPause` resolves on the
timeout path (`stoppedArrives = false`) with the session table untouched
(no stop context is written), and `waitForLaunch` resolves — never
rejects — when the timer fires with the launch response still pending. -/
theorem claim_C8_timeout_resolves (sessions : List (String × SessionData))
    (sessionId : String) (sd : SessionData)
    (hfound : mapGet sessions sessionId = some sd) :
    waitForPauseRun sessions sessionId false = (.resolvedOut, sessions) ∧
    (∀ seq : Nat, waitForLaunch (some seq) false = .resolvedOut) ∧
    waitForLaunch none false = .resolvedOut := by
  constructor
  · unfold waitForPauseRun
    rw [hfound]
    by_cases h : sd.state = .paused <;> simp [h]
  · exact ⟨fun _ => rfl, rfl⟩

/-- Claim C8, witness at a one-session table. -/
theorem claim_C8_witness :
    waitForPauseRun [("s1", emptySession .running)] "s1" false
      = (.resolvedOut, [("s1", emptySession .running)]) ∧
    waitForLaunch (some 7) false = .resolvedOut := by
  have h := claim_C8_timeout_resolves [("s1", emptySession .running)] "s1"
    (emptySession .running) rfl
  exact ⟨h.1, h.2.1 7⟩

/-- Claim C9.  With the cap set to K, recording K+M hits leaves exactly K
traces and the M oldest are the ones dropped; and every constructed
`TracePoint` truncates its variable list to at most
`MAX_VARIABLES_PER_TRACE = 100` entries. -/
theorem claim_C9_ring_buffer (K M : Nat) (hK : 0 < K)
    (ts : List TracePoint) (hlen : ts.length = K + M) :
    List.foldl (pushTrace K) [] ts = ts.drop M ∧
    (List.foldl (pushTrace K) [] ts).length = K ∧
    ∀ (dumpCount timestamp : Nat) (file : String) (line : Nat)
      (funcName : String) (vs : List Variable),
      (mkTracePoint dumpCount timestamp file line funcName vs).vars.length
        ≤ MAX_VARIABLES_PER_TRACE := by
  have h1 : List.foldl (pushTrace K) [] ts = ts.drop M := by
    have h := pushTrace_foldl K hK ts [] (by simp)
    simpa [hlen] using h
  refine ⟨h1, ?_, ?_⟩
  · rw [h1, List.length_drop, hlen, Nat.add_sub_cancel]
  · intro dc tsp f l fn vs
    show (vs.take MAX_VARIABLES_PER_TRACE).length ≤ MAX_VARIABLES_PER_TRACE
    rw [List.length_take]
    exact Nat.min_le_left _ _

/-- Claim C9, witness: cap 2, three hits, the oldest dropped. -/
theorem claim_C9_witness :
    List.foldl (pushTrace 2) [] [tpA, tpB, tpC] = [tpB, tpC] ∧
    (List.foldl (pushTrace 2) [] [tpA, tpB, tpC]).length = 2 := by
  have h := claim_C9_ring_buffer 2 1 (by decide) [tpA, tpB, tpC] (by decide)
  exact ⟨h.1, h.2.1⟩

/-- Claim C10.  `removeBreakpoint` never touches `dumpBreakpoints` (on any
of its paths, including the active-state re-issue), so removing a
tracepoint breakpoint leaves its dump registration in place and a later
stop at that (file, line) still takes the tracepoint branch of the stopped
handler; and a `setBreakpoint` at that line with `trace` not `true` and no
non-empty `dumpFile` deletes the registration. -/
theorem claim_C10_dump_registration (s : SessionData) (file : String) (line : Nat)
    (reply : List DapBreakpoint) :
    (removeBreakpoint s file line reply).1.dumpBreakpoints = s.dumpBreakpoints ∧
    ∀ (req : SetBreakpointRequest) (reply2 : List DapBreakpoint),
      ¬ req.trace = some true →
      (req.dumpFile = none ∨ req.dumpFile = some "") →
      mapGet (setBreakpoint s req reply2).1.dumpBreakpoints (bpKey req.file req.line)
        = none :=
  ⟨removeBreakpoint_dumpBreakpoints s file line reply,
   fun req reply2 htr hdf => by
     rw [setBreakpoint_dumpBreakpoints s req reply2 htr hdf, mapGet_mapDelete_self]⟩

/-- Claim C10, witness: removing the tracepoint at `/t.py:5` keeps the
registration; a plain `setBreakpoint` there deletes it. -/
theorem claim_C10_witness :
    (removeBreakpoint dumpSession "/t.py" 5 []).1.dumpBreakpoints
      = dumpSession.dumpBreakpoints ∧
    mapGet (setBreakpoint dumpSession
        { file := "/t.py", line := 5 } []).1.dumpBreakpoints (bpKey "/t.py" 5)
      = none := by
  have h := claim_C10_dump_registration dumpSession "/t.py" 5 []
  exact ⟨h.1, h.2 { file := "/t.py", line := 5 } [] (by decide) (Or.inl rfl)⟩

end Mcp
